import Mathlib

/-!
Verification development for the "Copy / Remap Bone Keyframes" Blender add-on
(`copy_bone_keyframes_plugin2.py` and the "Psycho's Helpers" variant).

The add-on's logic is embedded shallowly:

* Keyframe times, values and handle coordinates are Python floats; every
  operation the add-on performs on them (copying, multiplying by the signs
  ±1, negating) is exact in IEEE arithmetic, so they are modelled as `ℚ`.
* An f-curve (`FCurve`) is its `data_path` string, its `array_index` and its
  ordered list of keyframe points; an `Action` is its list of f-curves, in
  collection order (`fcurves.new` appends at the end).
* `bpy` mutates objects in place; the embedding threads the `Action` value
  through explicit state-passing.  A live f-curve object is recovered from
  the current action state by its `(data_path, array_index)` key: this
  relies on the collection invariant that no two f-curves of one action
  share that key (the code's `next(...)` lookups rely on the same
  invariant).
* `self.report` calls are modelled as an accumulated list of structured
  messages (`Msg`) carrying the reported data; each has the severity the
  code passes to `report`.
* An operator's `execute` returns `{'FINISHED'}` or `{'CANCELLED'}`; a
  Python exception escaping `execute` (e.g. the `AttributeError` raised by
  `obj.animation_data.action` when `animation_data` is `None`) is the third
  outcome `EXCEPT`.
* Iterating `action.fcurves` in a `for` loop is modelled as a fold over the
  snapshot of the f-curve list taken when the loop starts; f-curves created
  during the loop are appended to the threaded state and are seen by the
  later `next(...)` lookups, exactly as in the code.
* `keyframe_points.insert(frame, value)` keeps the sequence time-ordered;
  at a fresh frame it creates a point (handle shape and interpolation
  metadata take host-framework defaults, modelled by `defaultKeyframe`; no
  claim depends on the concrete default), at an existing frame it updates
  that point's value in place.
-/

namespace BoneAnim

/-- One keyframe point, with exactly the attributes the add-on reads or
writes (the fields of `copy_keyframe_data`): coordinate, both tangent
handles, interpolation mode, easing mode and both handle types. -/
structure KeyframePoint where
  co : ℚ × ℚ
  handle_left : ℚ × ℚ
  handle_right : ℚ × ℚ
  interpolation : String
  easing : String
  handle_left_type : String
  handle_right_type : String
deriving DecidableEq, Repr

/-- The keyframe point `keyframe_points.insert` creates at a fresh frame:
coordinate `(t, v)` and host-framework default handle shape and metadata.
The concrete defaults are irrelevant to every claim; they are fixed here so
that the model is executable. -/
def defaultKeyframe (t v : ℚ) : KeyframePoint :=
  ⟨(t, v), (t, v), (t, v), "BEZIER", "AUTO", "FREE", "FREE"⟩

/-- An f-curve: its RNA data path, array index and ordered keyframe list. -/
structure FCurve where
  data_path : String
  array_index : Int
  keyframe_points : List KeyframePoint
deriving DecidableEq, Repr

/-- An action: its f-curve collection in collection order. -/
structure Action where
  fcurves : List FCurve
deriving DecidableEq, Repr

/-- The f-string `f'pose.bones["{bone}"].{prop}'` used throughout the code
to build bone-property data paths. -/
def bonePath (bone prop : String) : String :=
  "pose.bones[\"" ++ bone ++ "\"]." ++ prop

/-- Python's `path.split('.')[-1]`: the substring after the last `'.'`
(the whole string when there is no `'.'`). -/
def lastProp (path : String) : String :=
  ⟨(path.data.reverse.takeWhile (fun c => c ≠ '.')).reverse⟩

/-- Python's `str.startswith`. -/
def pyStartswith (pre s : String) : Bool :=
  pre.data.isPrefixOf s.data

/-- Python's `str.endswith`. -/
def pyEndswith (suffix s : String) : Bool :=
  suffix.data.isSuffixOf s.data

/-- Contiguous-sublist test on character lists (Python's `sub in s`
membership for strings; the empty list is a sublist of everything). -/
def infixOfChars (sub : List Char) : List Char → Bool
  | [] => sub.isEmpty
  | c :: rest => sub.isPrefixOf (c :: rest) || infixOfChars sub rest

/-- Python's substring test `sub in s`. -/
def pySubstr (sub s : String) : Bool :=
  infixOfChars sub.data s.data

/-- Python's slice `s[:-k]` for `k = len(suffix) ≥ 0`: for `k = 0` the
slice is `s[:0] = ''` (since `-0 == 0`), otherwise the last `k` characters
are dropped. -/
def pySliceDropLast (s : String) (k : Nat) : String :=
  if k = 0 then "" else ⟨s.data.take (s.data.length - k)⟩

/-- The `axis_mapping` dictionary of the operators:
`{'X+': (0, 1), 'X-': (0, -1), 'Y+': (1, 1), 'Y-': (1, -1), 'Z+': (2, 1),
'Z-': (2, -1)}`; `none` for any other label. -/
def axis_mapping (label : String) : Option (Int × ℚ) :=
  if label = "X+" then some (0, 1)
  else if label = "X-" then some (0, -1)
  else if label = "Y+" then some (1, 1)
  else if label = "Y-" then some (1, -1)
  else if label = "Z+" then some (2, 1)
  else if label = "Z-" then some (2, -1)
  else none

/-- Lookup of an f-curve by `(data_path, array_index)` — the code's
`next((fc for fc in action.fcurves if fc.data_path == p and
fc.array_index == i), None)`. -/
def findFCurve (a : Action) (p : String) (i : Int) : Option FCurve :=
  a.fcurves.find? (fun fc => fc.data_path == p && fc.array_index == i)

/-- The keyframe list of the channel at `(p, i)`, when present. -/
def findPts (a : Action) (p : String) (i : Int) : Option (List KeyframePoint) :=
  (findFCurve a p i).map (·.keyframe_points)

/-- Whether a channel at `(p, i)` exists. -/
def hasFCurve (a : Action) (p : String) (i : Int) : Bool :=
  (findFCurve a p i).isSome

/-- Replace the keyframe list of the first f-curve keyed `(p, i)` by
`f` of it (in-place mutation of the looked-up f-curve object). -/
def updateFirst (p : String) (i : Int) (f : List KeyframePoint → List KeyframePoint) :
    List FCurve → List FCurve
  | [] => []
  | fc :: rest =>
    if fc.data_path == p && fc.array_index == i then
      { fc with keyframe_points := f fc.keyframe_points } :: rest
    else
      fc :: updateFirst p i f rest

/-- Action-level in-place mutation of the channel keyed `(p, i)`. -/
def updatePts (a : Action) (p : String) (i : Int)
    (f : List KeyframePoint → List KeyframePoint) : Action :=
  ⟨updateFirst p i f a.fcurves⟩

/-- Set the keyframe list of the channel keyed `(p, i)`. -/
def setPts (a : Action) (p : String) (i : Int) (pts : List KeyframePoint) : Action :=
  updatePts a p i (fun _ => pts)

/-- The code's create-if-absent step: `action.fcurves.new(data_path=p,
index=i)` appends a new empty f-curve at the end of the collection. -/
def ensureFCurve (a : Action) (p : String) (i : Int) : Action :=
  if hasFCurve a p i then a else ⟨a.fcurves ++ [⟨p, i, []⟩]⟩

/-- `keyframe_points.insert(t, v)`: time-ordered insertion; at an already
keyed frame the existing point's value is updated in place. -/
def insertKeyframe (t v : ℚ) : List KeyframePoint → List KeyframePoint
  | [] => [defaultKeyframe t v]
  | p :: ps =>
    if t < p.co.1 then defaultKeyframe t v :: p :: ps
    else if t = p.co.1 then { p with co := (t, v) } :: ps
    else p :: insertKeyframe t v ps

/-- The swap operator's `insert(d['co'][0], d['co'][1])` immediately
followed by `apply_keyframe_data(kp, d)`: the combination places the full
snapshot point `d` at its time-ordered position (at an already keyed frame
every field of the existing point is overwritten by `d`'s). -/
def insertKeyframeFull (d : KeyframePoint) : List KeyframePoint → List KeyframePoint
  | [] => [d]
  | p :: ps =>
    if d.co.1 < p.co.1 then d :: p :: ps
    else if d.co.1 = p.co.1 then d :: ps
    else p :: insertKeyframeFull d ps

/-- Severities of `self.report`. -/
inductive Severity where
  | Error
  | Warning
  | Info
deriving DecidableEq, Repr

/-- Structured messages: one constructor per distinct `self.report` call of
the modelled operators, carrying the data interpolated into the reported
string. -/
inductive Msg where
  | errNotArmature
  | errSelectTwo
  | errActiveNotSelected
  | errNoneSelected
  | errNoAnim
  | errNoActiveBone
  | errNoActionFlip
  | warnUnexpectedIndex (i : Int)
  | warnInvalidLabel (label : String)
  | warnNoKeyData (i : Int)
  | warnNoPairs
  | warnNoChannel (prop : String) (i : Int)
  | infoMapping (i : Int) (label : String) (j : Int) (s : ℚ)
  | infoSrcKey (t v sv : ℚ)
  | infoTgtKey (t sv : ℚ) (j : Int)
  | infoCopyDone (axis : String)
  | infoAllDone
  | infoRemapDone
  | infoFlipDone (prop : String) (i : Int) (bone : String)
  | infoSwapDone (src tgt : String)
deriving DecidableEq, Repr

/-- The severity each message is reported at. -/
def Msg.severity : Msg → Severity
  | .errNotArmature => .Error
  | .errSelectTwo => .Error
  | .errActiveNotSelected => .Error
  | .errNoneSelected => .Error
  | .errNoAnim => .Error
  | .errNoActiveBone => .Error
  | .errNoActionFlip => .Error
  | .warnUnexpectedIndex _ => .Warning
  | .warnInvalidLabel _ => .Warning
  | .warnNoKeyData _ => .Warning
  | .warnNoPairs => .Warning
  | .warnNoChannel _ _ => .Warning
  | .infoMapping _ _ _ _ => .Info
  | .infoSrcKey _ _ _ => .Info
  | .infoTgtKey _ _ _ => .Info
  | .infoCopyDone _ => .Info
  | .infoAllDone => .Info
  | .infoRemapDone => .Info
  | .infoFlipDone _ _ _ => .Info
  | .infoSwapDone _ _ => .Info

/-- Outcome of one operator invocation: `{'FINISHED'}`, `{'CANCELLED'}`, or
a Python exception escaping `execute`. -/
inductive Outcome where
  | FINISHED
  | CANCELLED
  | EXCEPT (e : String)
deriving DecidableEq, Repr

/-- `obj.animation_data`: `action` is the active action, possibly `None`. -/
structure AnimData where
  action : Option Action
deriving DecidableEq, Repr

/-- The operated-on Blender object: its type string, the names of its pose
bones, and its (possibly absent) animation data. -/
structure BObject where
  otype : String
  pose_bone_names : List String
  animation_data : Option AnimData
deriving DecidableEq, Repr

/-- The operator context: active object, selected pose bones (by name, in
selection order) and active pose bone. -/
structure Ctx where
  obj : Option BObject
  selected_pose_bones : List String
  active_pose_bone : Option String
deriving DecidableEq, Repr

/-- The scene-level configuration properties the add-on registers. -/
structure Scene where
  source_x_axis : String
  source_y_axis : String
  source_z_axis : String
  replace_all_keyframes : Bool
  secondary_x_axis : String
  secondary_y_axis : String
  secondary_z_axis : String
  secondary_replace_all_keyframes : Bool
  primary_mapper : String
  primary_suffix : String
  secondary_mapper : String
  secondary_suffix : String
deriving DecidableEq, Repr

/-- Result of one operator `execute`: outcome, reported messages, and the
context with all in-place mutations applied. -/
structure ExecOut where
  outcome : Outcome
  msgs : List Msg
  ctx : Ctx
deriving DecidableEq, Repr

/-- Write back a mutated action into the context (the action object is
mutated in place in the code). -/
def setAction (c : Ctx) (a : Action) : Ctx :=
  { c with obj := c.obj.map (fun o =>
      { o with animation_data := o.animation_data.map (fun ad =>
          { ad with action := ad.action.map (fun _ => a) }) }) }

/-- The active action of the context's object, if any. -/
def ctxAction (c : Ctx) : Option Action :=
  match c.obj with
  | none => none
  | some o =>
    match o.animation_data with
    | none => none
    | some ad => ad.action

/-- The primary per-axis labels `[source_x_axis, source_y_axis,
source_z_axis]`. -/
def primaryAxes (sc : Scene) : List String :=
  [sc.source_x_axis, sc.source_y_axis, sc.source_z_axis]

/-- The secondary per-axis labels. -/
def secondaryAxes (sc : Scene) : List String :=
  [sc.secondary_x_axis, sc.secondary_y_axis, sc.secondary_z_axis]

/-- The `startswith(f'pose.bones["{src}"].location')` filter of the copy
loop. -/
def matchesSrc (src : String) (fc : FCurve) : Bool :=
  pyStartswith (bonePath src "location") fc.data_path

/-- The current keyframe list of the live f-curve object `fc`, read from
the threaded action state (falls back to the snapshot if the channel
vanished, which no modelled operation does). -/
def livePts (a : Action) (fc : FCurve) : List KeyframePoint :=
  match findFCurve a fc.data_path fc.array_index with
  | some g => g.keyframe_points
  | none => fc.keyframe_points

/-- How one matching source channel resolves: out-of-range `array_index`,
unknown axis label, or a target `(path, index, sign)`. -/
inductive ResolveRes where
  | badIndex (i : Int)
  | badLabel (label : String)
  | ok (tpath : String) (j : Int) (s : ℚ)
deriving DecidableEq, Repr

/-- Lines 77–92 of the copy operator: extract the property name and axis
index, bounds-check the index, look the configured label up in
`axis_mapping`, and build the target data path. -/
def resolveChannel (source_axes : List String) (tgt : String) (fc : FCurve) : ResolveRes :=
  let i := fc.array_index
  if i < 0 ∨ (source_axes.length : Int) ≤ i then .badIndex i
  else
    let label := source_axes.getD i.toNat ""
    match axis_mapping label with
    | none => .badLabel label
    | some (j, s) => .ok (bonePath tgt (lastProp fc.data_path)) j s

/-- The body of the copy loop (lines 72–116 of `CopyBoneKeyframesOperator.
execute`, duplicated verbatim inside `RemapAllBonesOperator.execute`) for
one iterated f-curve: skip non-matching channels, resolve the axis
mapping, get-or-create the target channel, clear it when `replace_all`,
skip (with a warning) channels with no keyframes, and insert every scaled
source point. -/
def processChannel (source_axes : List String) (replace_all : Bool) (src tgt : String)
    (st : Action × List Msg) (fc : FCurve) : Action × List Msg :=
  if ¬ matchesSrc src fc then st
  else
    match resolveChannel source_axes tgt fc with
    | .badIndex i => (st.1, st.2 ++ [.warnUnexpectedIndex i])
    | .badLabel label => (st.1, st.2 ++ [.warnInvalidLabel label])
    | .ok tpath j s =>
      let ms := st.2 ++ [.infoMapping fc.array_index (source_axes.getD fc.array_index.toNat "") j s]
      let a := ensureFCurve st.1 tpath j
      let a := if replace_all then setPts a tpath j [] else a
      let live := livePts a fc
      if live.isEmpty then (a, ms ++ [.warnNoKeyData fc.array_index])
      else
        live.foldl (fun st2 kp =>
          (updatePts st2.1 tpath j (insertKeyframe kp.co.1 (kp.co.2 * s)),
           st2.2 ++ [.infoSrcKey kp.co.1 kp.co.2 (kp.co.2 * s),
                     .infoTgtKey kp.co.1 (kp.co.2 * s) j])) (a, ms)

/-- The whole `for fcurve in action.fcurves` copy loop for one
(source bone, target bone) pair. -/
def copyRun (source_axes : List String) (replace_all : Bool) (src tgt : String)
    (a : Action) : Action × List Msg :=
  a.fcurves.foldl (processChannel source_axes replace_all src tgt) (a, [])

/-- `CopyBoneKeyframesOperator.execute`. -/
def copyOneExec (axis : String) (use_secondary_mapping : Bool) (scene : Scene)
    (c : Ctx) : ExecOut :=
  match c.obj with
  | none => ⟨.CANCELLED, [.errNotArmature], c⟩
  | some obj =>
    if obj.otype ≠ "ARMATURE" then ⟨.CANCELLED, [.errNotArmature], c⟩
    else
      match c.selected_pose_bones with
      | [b0, b1] =>
        match c.active_pose_bone with
        | none => ⟨.CANCELLED, [.errActiveNotSelected], c⟩
        | some act =>
          if ¬ (act = b0 ∨ act = b1) then ⟨.CANCELLED, [.errActiveNotSelected], c⟩
          else
            let source_bone := if b1 = act then b0 else b1
            let target_bone := act
            let source_axes :=
              if use_secondary_mapping then secondaryAxes scene else primaryAxes scene
            let replace_all :=
              if use_secondary_mapping then scene.secondary_replace_all_keyframes
              else scene.replace_all_keyframes
            match obj.animation_data with
            | none => ⟨.EXCEPT "AttributeError", [], c⟩
            | some ad =>
              match ad.action with
              | none => ⟨.CANCELLED, [.errNoAnim], c⟩
              | some action =>
                let r := copyRun source_axes replace_all source_bone target_bone action
                ⟨.FINISHED, r.2 ++ [.infoCopyDone axis], setAction c r.1⟩
      | _ => ⟨.CANCELLED, [.errSelectTwo], c⟩

/-- `CopyAllAxesKeyframesOperator.execute`: after its own precondition
checks it invokes `bpy.ops.object.copy_bone_keyframes` once per axis label;
a `CANCELLED` sub-invocation is ignored, an exception propagates, and the
operator then reports success and returns `FINISHED`. -/
def copyAllExec (use_secondary_mapping : Bool) (scene : Scene) (c : Ctx) : ExecOut :=
  match c.obj with
  | none => ⟨.CANCELLED, [.errNotArmature], c⟩
  | some obj =>
    if obj.otype ≠ "ARMATURE" then ⟨.CANCELLED, [.errNotArmature], c⟩
    else
      match c.selected_pose_bones with
      | [b0, b1] =>
        match c.active_pose_bone with
        | none => ⟨.CANCELLED, [.errActiveNotSelected], c⟩
        | some act =>
          if ¬ (act = b0 ∨ act = b1) then ⟨.CANCELLED, [.errActiveNotSelected], c⟩
          else
            let r := ["X", "Y", "Z"].foldl
              (fun (st : Outcome × List Msg × Ctx) ax =>
                match st.1 with
                | .EXCEPT _ => st
                | _ =>
                  let sub := copyOneExec ax use_secondary_mapping scene st.2.2
                  (match sub.outcome with
                   | .EXCEPT e => Outcome.EXCEPT e
                   | _ => st.1,
                   st.2.1 ++ sub.msgs, sub.ctx))
              (Outcome.FINISHED, ([] : List Msg), c)
            match r.1 with
            | .EXCEPT e => ⟨.EXCEPT e, r.2.1, r.2.2⟩
            | _ => ⟨.FINISHED, r.2.1 ++ [.infoAllDone], r.2.2⟩
      | _ => ⟨.CANCELLED, [.errSelectTwo], c⟩

/-- The pairing loop of `RemapAllBonesOperator.execute`: each selected bone
whose name ends with the primary suffix is paired with the pose bone named
by the Python slice `name[:-len(suffix)]`, provided that bone exists and is
also selected.  Pairs are `(source, target)` in selection order. -/
def computePairs (pose_bones selected : List String) (suffix : String) :
    List (String × String) :=
  selected.filterMap (fun bn =>
    if pyEndswith suffix bn then
      let base := pySliceDropLast bn suffix.length
      if pose_bones.contains base && selected.contains base then some (base, bn)
      else none
    else none)

/-- Lines 402–415 of `RemapAllBonesOperator.execute`: the per-pair mapping
profile — the secondary axis labels and replace flag when
`secondary_mapper in source_bone.name` (Python substring test), the
primary ones otherwise. -/
def profileFor (scene : Scene) (source_name : String) : List String × Bool :=
  if pySubstr scene.secondary_mapper source_name then
    (secondaryAxes scene, scene.secondary_replace_all_keyframes)
  else
    (primaryAxes scene, scene.replace_all_keyframes)

/-- `RemapAllBonesOperator.execute`. -/
def remapAllExec (scene : Scene) (c : Ctx) : ExecOut :=
  match c.obj with
  | none => ⟨.CANCELLED, [.errNotArmature], c⟩
  | some obj =>
    if obj.otype ≠ "ARMATURE" then ⟨.CANCELLED, [.errNotArmature], c⟩
    else if c.selected_pose_bones.isEmpty then ⟨.CANCELLED, [.errNoneSelected], c⟩
    else
      let bone_pairs := computePairs obj.pose_bone_names c.selected_pose_bones scene.primary_suffix
      if bone_pairs.isEmpty then ⟨.CANCELLED, [.warnNoPairs], c⟩
      else
        match obj.animation_data with
        | none => ⟨.EXCEPT "AttributeError", [], c⟩
        | some ad =>
          match ad.action with
          | none => ⟨.CANCELLED, [.errNoAnim], c⟩
          | some a0 =>
            let r := bone_pairs.foldl
              (fun (st : Action × List Msg) pr =>
                let prof := profileFor scene pr.1
                st.1.fcurves.foldl (processChannel prof.1 prof.2 pr.1 pr.2) st)
              (a0, [])
            ⟨.FINISHED, r.2 ++ [.infoRemapDone], setAction c r.1⟩

/-- The in-place point flip of `FlipKeyframeAxisOperator`: negate the value
and both handle ordinates, leaving times, handle abscissas and metadata
untouched. -/
def flipKP (p : KeyframePoint) : KeyframePoint :=
  { p with
    co := (p.co.1, -p.co.2),
    handle_left := (p.handle_left.1, -p.handle_left.2),
    handle_right := (p.handle_right.1, -p.handle_right.2) }

/-- `FlipKeyframeAxisOperator.execute`. -/
def flipExec (prop : String) (axis : Int) (c : Ctx) : ExecOut :=
  match c.obj with
  | none => ⟨.CANCELLED, [.errNotArmature], c⟩
  | some obj =>
    if obj.otype ≠ "ARMATURE" then ⟨.CANCELLED, [.errNotArmature], c⟩
    else
      match c.active_pose_bone with
      | none => ⟨.CANCELLED, [.errNoActiveBone], c⟩
      | some bone =>
        let action? := match obj.animation_data with
          | some ad => ad.action
          | none => none
        match action? with
        | none => ⟨.CANCELLED, [.errNoActionFlip], c⟩
        | some action =>
          let dp := bonePath bone prop
          match findFCurve action dp axis with
          | none => ⟨.CANCELLED, [.warnNoChannel prop axis], c⟩
          | some _ =>
            let a' := updatePts action dp axis (fun pts => pts.map flipKP)
            ⟨.FINISHED, [.infoFlipDone prop axis bone], setAction c a'⟩

/-- The swap operator's transform properties. -/
def transform_properties : List String :=
  ["location", "rotation_euler", "rotation_quaternion", "scale"]

/-- The `(prop, axis_index)` pairs the swap loop iterates:
`range(3 if prop != 'rotation_quaternion' else 4)` per property. -/
def propAxisPairs : List (String × Int) :=
  transform_properties.foldr
    (fun p acc =>
      ((if p = "rotation_quaternion" then [0, 1, 2, 3] else [0, 1, 2]).map
        (fun i => (p, (i : Int)))) ++ acc)
    []

/-- One iteration of the swap loop: skip the `(prop, axis)` combination
when either channel is missing; otherwise snapshot both channels' full
point data, clear both, and re-insert each snapshot into the other channel
(insert plus `apply_keyframe_data`). -/
def swapStep (src tgt : String) (a : Action) (pr : String × Int) : Action :=
  let spath := bonePath src pr.1
  let tpath := bonePath tgt pr.1
  match findFCurve a spath pr.2, findFCurve a tpath pr.2 with
  | some sfc, some tfc =>
    let source_data := sfc.keyframe_points
    let target_data := tfc.keyframe_points
    let a1 := setPts a spath pr.2 []
    let a2 := setPts a1 tpath pr.2 []
    let a3 := source_data.foldl (fun acc d => updatePts acc tpath pr.2 (insertKeyframeFull d)) a2
    target_data.foldl (fun acc d => updatePts acc spath pr.2 (insertKeyframeFull d)) a3
  | _, _ => a

/-- `SwapKeyframesOperator.execute`. -/
def swapExec (c : Ctx) : ExecOut :=
  match c.obj with
  | none => ⟨.CANCELLED, [.errNotArmature], c⟩
  | some obj =>
    if obj.otype ≠ "ARMATURE" then ⟨.CANCELLED, [.errNotArmature], c⟩
    else
      match c.selected_pose_bones with
      | [b0, b1] =>
        match c.active_pose_bone with
        | none => ⟨.CANCELLED, [.errActiveNotSelected], c⟩
        | some act =>
          if ¬ (act = b0 ∨ act = b1) then ⟨.CANCELLED, [.errActiveNotSelected], c⟩
          else
            let source_bone := if b1 = act then b0 else b1
            let target_bone := act
            match obj.animation_data with
            | none => ⟨.CANCELLED, [.errNoAnim], c⟩
            | some ad =>
              match ad.action with
              | none => ⟨.CANCELLED, [.errNoAnim], c⟩
              | some action =>
                let a' := propAxisPairs.foldl (swapStep source_bone target_bone) action
                ⟨.FINISHED, [.infoSwapDone source_bone target_bone], setAction c a'⟩
      | _ => ⟨.CANCELLED, [.errSelectTwo], c⟩

/-- Strictly increasing keyframe times — the ordering invariant Blender
maintains for `keyframe_points`. -/
def TimeSorted (pts : List KeyframePoint) : Prop :=
  pts.Pairwise (fun p q => p.co.1 < q.co.1)

instance (pts : List KeyframePoint) : Decidable (TimeSorted pts) :=
  inferInstanceAs (Decidable (pts.Pairwise _))

/-- Every channel of the action is time-ordered. -/
def SortedAction (a : Action) : Prop :=
  ∀ fc ∈ a.fcurves, TimeSorted fc.keyframe_points

instance (a : Action) : Decidable (SortedAction a) :=
  inferInstanceAs (Decidable (∀ fc ∈ a.fcurves, TimeSorted fc.keyframe_points))

/-- No two f-curves of the action share a `(data_path, array_index)` key —
the collection invariant all the code's `next(...)` lookups rely on. -/
def UniqueKeys (a : Action) : Prop :=
  a.fcurves.Pairwise
    (fun f g => ¬ (f.data_path = g.data_path ∧ f.array_index = g.array_index))

instance (a : Action) : Decidable (UniqueKeys a) :=
  inferInstanceAs (Decidable (a.fcurves.Pairwise _))

theorem UniqueKeys.forall_eq {a : Action} (hu : UniqueKeys a) :
    ∀ fc₁ ∈ a.fcurves, ∀ fc₂ ∈ a.fcurves,
      fc₁.data_path = fc₂.data_path → fc₁.array_index = fc₂.array_index → fc₁ = fc₂ := by
  intro fc₁ h₁ fc₂ h₂ hp hi
  by_contra hne
  have hsymm : Symmetric (fun (f g : FCurve) =>
      ¬ (f.data_path = g.data_path ∧ f.array_index = g.array_index)) := by
    intro f g h hc
    exact h ⟨hc.1.symm, hc.2.symm⟩
  exact List.Pairwise.forall hsymm hu h₁ h₂ hne ⟨hp, hi⟩

/-! ### Basic algebra of channel lookup and in-place update -/

theorem keyTest_iff {fc : FCurve} {p : String} {i : Int} :
    (fc.data_path == p && fc.array_index == i) = true ↔
      fc.data_path = p ∧ fc.array_index = i := by
  simp

theorem findFCurve_mem {a : Action} {p : String} {i : Int} {fc : FCurve}
    (h : findFCurve a p i = some fc) :
    fc ∈ a.fcurves ∧ fc.data_path = p ∧ fc.array_index = i := by
  have hm := List.mem_of_find?_eq_some h
  have hp := List.find?_some h
  exact ⟨hm, keyTest_iff.mp hp⟩

theorem find?_key_self {l : List FCurve}
    (hu : ∀ fc₁ ∈ l, ∀ fc₂ ∈ l,
      fc₁.data_path = fc₂.data_path → fc₁.array_index = fc₂.array_index → fc₁ = fc₂)
    {fc : FCurve} (hm : fc ∈ l) :
    l.find? (fun g => g.data_path == fc.data_path && g.array_index == fc.array_index) =
      some fc := by
  induction l with
  | nil => cases hm
  | cons hd tl ih =>
    by_cases hk : (hd.data_path == fc.data_path && hd.array_index == fc.array_index) = true
    · have hkk := keyTest_iff.mp hk
      have heq : hd = fc := by
        cases hm with
        | head => rfl
        | tail _ hm => exact hu hd (by simp) fc (List.mem_cons_of_mem _ hm) hkk.1 hkk.2
      simp [List.find?, hk, heq]
    · have hne : hd ≠ fc := by
        rintro rfl
        exact hk (keyTest_iff.mpr ⟨rfl, rfl⟩)
      cases hm with
      | head => exact absurd rfl hne
      | tail _ hm =>
        have ih' := ih (fun f₁ h₁ f₂ h₂ => hu f₁ (by simp [h₁]) f₂ (by simp [h₂])) hm
        simpa [List.find?, hk] using ih'

theorem findFCurve_self {a : Action} (hu : UniqueKeys a) {fc : FCurve}
    (hm : fc ∈ a.fcurves) :
    findFCurve a fc.data_path fc.array_index = some fc :=
  find?_key_self hu.forall_eq hm

theorem updateFirst_findKey_same (p : String) (i : Int)
    (f : List KeyframePoint → List KeyframePoint) (l : List FCurve) :
    (updateFirst p i f l).find? (fun fc => fc.data_path == p && fc.array_index == i) =
      (l.find? (fun fc => fc.data_path == p && fc.array_index == i)).map
        (fun fc => { fc with keyframe_points := f fc.keyframe_points }) := by
  induction l with
  | nil => simp [updateFirst]
  | cons hd tl ih =>
    by_cases hk : (hd.data_path == p && hd.array_index == i) = true
    · simp [updateFirst, hk, List.find?]
    · simp [updateFirst, hk, List.find?, ih]

theorem findFCurve_updatePts_same (a : Action) (p : String) (i : Int)
    (f : List KeyframePoint → List KeyframePoint) :
    findFCurve (updatePts a p i f) p i =
      (findFCurve a p i).map (fun fc => { fc with keyframe_points := f fc.keyframe_points }) :=
  updateFirst_findKey_same p i f a.fcurves

theorem findPts_updatePts_same (a : Action) (p : String) (i : Int)
    (f : List KeyframePoint → List KeyframePoint) :
    findPts (updatePts a p i f) p i = (findPts a p i).map f := by
  unfold findPts
  rw [findFCurve_updatePts_same]
  cases findFCurve a p i <;> rfl

theorem findFCurve_updatePts_ne (a : Action) {p p' : String} {i i' : Int}
    (f : List KeyframePoint → List KeyframePoint)
    (h : ¬ (p' = p ∧ i' = i)) :
    findFCurve (updatePts a p i f) p' i' = findFCurve a p' i' := by
  unfold findFCurve updatePts
  induction a.fcurves with
  | nil => simp [updateFirst]
  | cons hd tl ih =>
    by_cases hk : (hd.data_path == p && hd.array_index == i) = true
    · have hkk := keyTest_iff.mp hk
      have hne : (hd.data_path == p' && hd.array_index == i') = false := by
        rw [Bool.eq_false_iff]
        intro hc
        have := keyTest_iff.mp hc
        exact h ⟨this.1 ▸ hkk.1, this.2 ▸ hkk.2⟩
      simp [updateFirst, hk, List.find?, hne]
    · by_cases hk' : (hd.data_path == p' && hd.array_index == i') = true
      · simp [updateFirst, hk, List.find?, hk']
      · simp only [updateFirst, hk, Bool.false_eq_true, if_false, List.find?, hk']
        exact ih

theorem findPts_updatePts_ne (a : Action) {p p' : String} {i i' : Int}
    (f : List KeyframePoint → List KeyframePoint)
    (h : ¬ (p' = p ∧ i' = i)) :
    findPts (updatePts a p i f) p' i' = findPts a p' i' := by
  unfold findPts
  rw [findFCurve_updatePts_ne a f h]

theorem updatePts_updatePts_same (a : Action) (p : String) (i : Int)
    (f g : List KeyframePoint → List KeyframePoint) :
    updatePts (updatePts a p i f) p i g = updatePts a p i (g ∘ f) := by
  unfold updatePts
  congr 1
  induction a.fcurves with
  | nil => simp [updateFirst]
  | cons hd tl ih =>
    by_cases hk : (hd.data_path == p && hd.array_index == i) = true
    · simp [updateFirst, hk]
    · simp [updateFirst, hk, ih]

theorem updatePts_comm (a : Action) {p p' : String} {i i' : Int}
    (f g : List KeyframePoint → List KeyframePoint)
    (h : ¬ (p' = p ∧ i' = i)) :
    updatePts (updatePts a p i f) p' i' g = updatePts (updatePts a p' i' g) p i f := by
  unfold updatePts
  congr 1
  induction a.fcurves with
  | nil => simp [updateFirst]
  | cons hd tl ih =>
    by_cases hk : (hd.data_path == p && hd.array_index == i) = true
    · have hkk := keyTest_iff.mp hk
      have hne : (hd.data_path == p' && hd.array_index == i') = false := by
        rw [Bool.eq_false_iff]
        intro hc
        have := keyTest_iff.mp hc
        exact h ⟨this.1 ▸ hkk.1, this.2 ▸ hkk.2⟩
      simp [updateFirst, hk, hne]
    · by_cases hk' : (hd.data_path == p' && hd.array_index == i') = true
      · simp [updateFirst, hk, hk']
      · simp [updateFirst, hk, hk', ih]

theorem updatePts_id {a : Action} {p : String} {i : Int}
    {f : List KeyframePoint → List KeyframePoint}
    (h : ∀ fc, findFCurve a p i = some fc → f fc.keyframe_points = fc.keyframe_points) :
    updatePts a p i f = a := by
  unfold updatePts
  rcases a with ⟨l⟩
  congr 1
  unfold findFCurve at h
  induction l with
  | nil => simp [updateFirst]
  | cons hd tl ih =>
    by_cases hk : (hd.data_path == p && hd.array_index == i) = true
    · have hhd := h hd (by simp [List.find?, hk])
      simp [updateFirst, hk, hhd]
    · have h' : ∀ fc, tl.find? (fun fc => fc.data_path == p && fc.array_index == i) = some fc →
          f fc.keyframe_points = fc.keyframe_points := by
        intro fc hfc
        exact h fc (by simpa [List.find?, hk] using hfc)
      simp [updateFirst, hk, ih h']

theorem hasFCurve_updatePts (a : Action) (p p' : String) (i i' : Int)
    (f : List KeyframePoint → List KeyframePoint) :
    hasFCurve (updatePts a p i f) p' i' = hasFCurve a p' i' := by
  by_cases h : p' = p ∧ i' = i
  · rcases h with ⟨rfl, rfl⟩
    unfold hasFCurve
    rw [findFCurve_updatePts_same]
    cases findFCurve a p' i' <;> rfl
  · unfold hasFCurve
    rw [findFCurve_updatePts_ne a f h]

theorem findFCurve_ensure_same (a : Action) (p : String) (i : Int) :
    findPts (ensureFCurve a p i) p i = some ((findPts a p i).getD []) := by
  unfold ensureFCurve hasFCurve
  cases hf : findFCurve a p i with
  | some fc =>
    simp only [hf, Option.isSome_some, if_true]
    unfold findPts
    rw [hf]
    rfl
  | none =>
    simp only [hf, Option.isSome_none, Bool.false_eq_true, if_false]
    have hf' : List.find? (fun fc => fc.data_path == p && fc.array_index == i) a.fcurves =
        none := hf
    unfold findPts findFCurve
    simp only [List.find?_append, hf', Option.none_or, List.find?]
    rw [show ((⟨p, i, []⟩ : FCurve).data_path == p &&
        (⟨p, i, []⟩ : FCurve).array_index == i) = true from keyTest_iff.mpr ⟨rfl, rfl⟩]
    rfl

theorem findFCurve_ensure_ne (a : Action) {p p' : String} {i i' : Int}
    (h : ¬ (p' = p ∧ i' = i)) :
    findFCurve (ensureFCurve a p i) p' i' = findFCurve a p' i' := by
  unfold ensureFCurve
  by_cases hh : hasFCurve a p i
  · simp [hh]
  · simp only [hh, Bool.false_eq_true, if_false]
    unfold findFCurve
    simp only [List.find?_append]
    have : (List.find? (fun fc => fc.data_path == p' && fc.array_index == i')
        [(⟨p, i, []⟩ : FCurve)]) = none := by
      simp only [List.find?]
      rw [show ((⟨p, i, []⟩ : FCurve).data_path == p' &&
        (⟨p, i, []⟩ : FCurve).array_index == i') = false by
          rw [Bool.eq_false_iff]
          intro hc
          have := keyTest_iff.mp hc
          exact h ⟨this.1.symm, this.2.symm⟩]
    rw [this]
    cases List.find? (fun fc => fc.data_path == p' && fc.array_index == i') a.fcurves <;> rfl

theorem findPts_ensure_ne (a : Action) {p p' : String} {i i' : Int}
    (h : ¬ (p' = p ∧ i' = i)) :
    findPts (ensureFCurve a p i) p' i' = findPts a p' i' := by
  unfold findPts
  rw [findFCurve_ensure_ne a h]

theorem hasFCurve_ensure_same (a : Action) (p : String) (i : Int) :
    hasFCurve (ensureFCurve a p i) p i = true := by
  have := findFCurve_ensure_same a p i
  unfold findPts at this
  unfold hasFCurve
  cases hf : findFCurve (ensureFCurve a p i) p i with
  | none => rw [hf] at this; simp at this
  | some fc => rfl

/-! ### Time-ordered insertion -/

theorem co_defaultKeyframe (t v : ℚ) : (defaultKeyframe t v).co = (t, v) := rfl

theorem insertKeyframe_cons_lt {t : ℚ} (v : ℚ) {p : KeyframePoint}
    (ps : List KeyframePoint) (h : t < p.co.1) :
    insertKeyframe t v (p :: ps) = defaultKeyframe t v :: p :: ps := by
  simp only [insertKeyframe]
  rw [if_pos h]

theorem insertKeyframe_cons_eq {t : ℚ} (v : ℚ) {p : KeyframePoint}
    (ps : List KeyframePoint) (h1 : ¬ t < p.co.1) (h2 : t = p.co.1) :
    insertKeyframe t v (p :: ps) = { p with co := (t, v) } :: ps := by
  simp only [insertKeyframe]
  rw [if_neg h1, if_pos h2]

theorem insertKeyframe_cons_gt {t : ℚ} (v : ℚ) {p : KeyframePoint}
    (ps : List KeyframePoint) (h1 : ¬ t < p.co.1) (h2 : t ≠ p.co.1) :
    insertKeyframe t v (p :: ps) = p :: insertKeyframe t v ps := by
  simp only [insertKeyframe]
  rw [if_neg h1, if_neg h2]

theorem mem_insertKeyframe_self (t v : ℚ) (pts : List KeyframePoint) :
    ∃ q ∈ insertKeyframe t v pts, q.co = (t, v) := by
  induction pts with
  | nil => exact ⟨defaultKeyframe t v, by simp [insertKeyframe], rfl⟩
  | cons p ps ih =>
    by_cases h1 : t < p.co.1
    · rw [insertKeyframe_cons_lt v ps h1]
      exact ⟨defaultKeyframe t v, List.mem_cons_self _ _, rfl⟩
    · by_cases h2 : t = p.co.1
      · rw [insertKeyframe_cons_eq v ps h1 h2]
        exact ⟨{ p with co := (t, v) }, List.mem_cons_self _ _, rfl⟩
      · rw [insertKeyframe_cons_gt v ps h1 h2]
        obtain ⟨q, hq, hco⟩ := ih
        exact ⟨q, List.mem_cons_of_mem _ hq, hco⟩

theorem mem_insertKeyframe_of_ne {q : KeyframePoint} {pts : List KeyframePoint}
    (t v : ℚ) (hq : q ∈ pts) (hne : q.co.1 ≠ t) :
    q ∈ insertKeyframe t v pts := by
  induction pts with
  | nil => cases hq
  | cons p ps ih =>
    by_cases h1 : t < p.co.1
    · rw [insertKeyframe_cons_lt v ps h1]
      exact List.mem_cons_of_mem _ hq
    · by_cases h2 : t = p.co.1
      · rw [insertKeyframe_cons_eq v ps h1 h2]
        cases hq with
        | head => exact absurd h2.symm (by simpa using hne)
        | tail _ hq => exact List.mem_cons_of_mem _ hq
      · rw [insertKeyframe_cons_gt v ps h1 h2]
        cases hq with
        | head => exact List.mem_cons_self _ _
        | tail _ hq => exact List.mem_cons_of_mem _ (ih hq)

theorem times_insertKeyframe {q : KeyframePoint} (t v : ℚ) {pts : List KeyframePoint}
    (hq : q ∈ insertKeyframe t v pts) :
    q.co.1 = t ∨ ∃ r ∈ pts, q.co.1 = r.co.1 := by
  induction pts with
  | nil =>
    simp only [insertKeyframe, List.mem_singleton] at hq
    exact Or.inl (by rw [hq]; rfl)
  | cons p ps ih =>
    by_cases h1 : t < p.co.1
    · rw [insertKeyframe_cons_lt v ps h1] at hq
      cases hq with
      | head => exact Or.inl rfl
      | tail _ hq => exact Or.inr ⟨q, hq, rfl⟩
    · by_cases h2 : t = p.co.1
      · rw [insertKeyframe_cons_eq v ps h1 h2] at hq
        cases hq with
        | head => exact Or.inl rfl
        | tail _ hq => exact Or.inr ⟨q, List.mem_cons_of_mem _ hq, rfl⟩
      · rw [insertKeyframe_cons_gt v ps h1 h2] at hq
        cases hq with
        | head => exact Or.inr ⟨q, List.mem_cons_self _ _, rfl⟩
        | tail _ hq =>
          rcases ih hq with h | ⟨r, hr, hqr⟩
          · exact Or.inl h
          · exact Or.inr ⟨r, List.mem_cons_of_mem _ hr, hqr⟩

theorem insertKeyframe_sorted {pts : List KeyframePoint} (t v : ℚ)
    (hs : TimeSorted pts) : TimeSorted (insertKeyframe t v pts) := by
  induction pts with
  | nil => simp [insertKeyframe, TimeSorted]
  | cons p ps ih =>
    rw [TimeSorted, List.pairwise_cons] at hs
    by_cases h1 : t < p.co.1
    · rw [insertKeyframe_cons_lt v ps h1]
      rw [TimeSorted, List.pairwise_cons]
      refine ⟨?_, List.pairwise_cons.mpr ⟨hs.1, hs.2⟩⟩
      intro r hr
      cases hr with
      | head => exact h1
      | tail _ hr => exact lt_trans h1 (hs.1 r hr)
    · by_cases h2 : t = p.co.1
      · rw [insertKeyframe_cons_eq v ps h1 h2]
        rw [TimeSorted, List.pairwise_cons]
        refine ⟨?_, hs.2⟩
        intro r hr
        show t < r.co.1
        rw [h2]
        exact hs.1 r hr
      · rw [insertKeyframe_cons_gt v ps h1 h2]
        rw [TimeSorted, List.pairwise_cons]
        refine ⟨?_, ih hs.2⟩
        intro r hr
        rcases times_insertKeyframe t v hr with hrt | ⟨r', hr', hrr⟩
        · rw [hrt]
          rcases lt_trichotomy t p.co.1 with h | h | h
          · exact absurd h h1
          · exact absurd h h2
          · exact h
        · rw [hrr]
          exact hs.1 r' hr'

theorem insertKeyframe_eq_self {pts : List KeyframePoint} {q : KeyframePoint} {t v : ℚ}
    (hs : TimeSorted pts) (hq : q ∈ pts) (hco : q.co = (t, v)) :
    insertKeyframe t v pts = pts := by
  induction pts with
  | nil => cases hq
  | cons p ps ih =>
    rw [TimeSorted, List.pairwise_cons] at hs
    have hqt : q.co.1 = t := by rw [hco]
    by_cases h1 : t < p.co.1
    · exfalso
      cases hq with
      | head => exact absurd (hqt ▸ h1) (lt_irrefl _)
      | tail _ hq =>
        have := hs.1 q hq
        rw [hqt] at this
        exact absurd (lt_trans this h1) (lt_irrefl _)
    · by_cases h2 : t = p.co.1
      · rw [insertKeyframe_cons_eq v ps h1 h2]
        have hqp : q = p := by
          cases hq with
          | head => rfl
          | tail _ hq =>
            exfalso
            have := hs.1 q hq
            rw [hqt, h2] at this
            exact absurd this (lt_irrefl _)
        have hpco : p.co = (t, v) := hqp ▸ hco
        have : ({ p with co := (t, v) } : KeyframePoint) = p := by
          rw [← hpco]
        rw [this]
      · rw [insertKeyframe_cons_gt v ps h1 h2]
        cases hq with
        | head => exact absurd hqt.symm h2
        | tail _ hq => rw [ih hs.2 hq]

theorem insertKeyframe_append {pts : List KeyframePoint} {t : ℚ} (v : ℚ)
    (h : ∀ q ∈ pts, q.co.1 < t) :
    insertKeyframe t v pts = pts ++ [defaultKeyframe t v] := by
  induction pts with
  | nil => rfl
  | cons p ps ih =>
    have hp := h p (List.mem_cons_self _ _)
    have h1 : ¬ t < p.co.1 := fun hc => absurd (lt_trans hp hc) (lt_irrefl _)
    have h2 : t ≠ p.co.1 := fun hc => absurd (hc ▸ hp) (lt_irrefl _)
    rw [insertKeyframe_cons_gt v ps h1 h2, List.cons_append,
      ih (fun q hq => h q (List.mem_cons_of_mem _ hq))]

/-! ### Folds of insertions -/

theorem foldl_insert_scaled (s : ℚ) (src : List KeyframePoint) :
    ∀ acc : List KeyframePoint, TimeSorted src →
      (∀ q ∈ acc, ∀ kp ∈ src, q.co.1 < kp.co.1) →
      src.foldl (fun pts kp => insertKeyframe kp.co.1 (kp.co.2 * s) pts) acc =
        acc ++ src.map (fun kp => defaultKeyframe kp.co.1 (kp.co.2 * s)) := by
  induction src with
  | nil => intro acc _ _; simp
  | cons kp src' ih =>
    intro acc hs hlt
    rw [TimeSorted, List.pairwise_cons] at hs
    simp only [List.foldl_cons, List.map_cons]
    rw [insertKeyframe_append (kp.co.2 * s) (fun q hq => hlt q hq kp (List.mem_cons_self _ _))]
    rw [ih (acc ++ [defaultKeyframe kp.co.1 (kp.co.2 * s)]) hs.2 ?_]
    · simp
    · intro q hq k hk
      rcases List.mem_append.mp hq with hq | hq
      · exact hlt q hq k (List.mem_cons_of_mem _ hk)
      · rw [List.mem_singleton.mp hq]
        exact hs.1 k hk

theorem exists_co_foldl_insert (s : ℚ) {src : List KeyframePoint} {t₀ v₀ : ℚ} :
    ∀ {acc : List KeyframePoint}, (∃ q ∈ acc, q.co = (t₀, v₀)) →
      (∀ kp ∈ src, kp.co.1 ≠ t₀) →
      ∃ q ∈ src.foldl (fun pts kp => insertKeyframe kp.co.1 (kp.co.2 * s) pts) acc,
        q.co = (t₀, v₀) := by
  induction src with
  | nil => intro acc h _; exact h
  | cons kp src' ih =>
    intro acc h hne
    obtain ⟨q, hq, hco⟩ := h
    refine ih ⟨q, mem_insertKeyframe_of_ne _ _ hq ?_, hco⟩
      (fun k hk => hne k (List.mem_cons_of_mem _ hk))
    rw [hco]
    exact fun hc => hne kp (List.mem_cons_self _ _) (hc ▸ rfl)

theorem foldl_insert_contains (s : ℚ) {src : List KeyframePoint} (hs : TimeSorted src) :
    ∀ acc : List KeyframePoint, ∀ kp ∈ src,
      ∃ q ∈ src.foldl (fun pts k => insertKeyframe k.co.1 (k.co.2 * s) pts) acc,
        q.co = (kp.co.1, kp.co.2 * s) := by
  induction src with
  | nil => intro acc kp h; cases h
  | cons k src' ih =>
    intro acc kp hkp
    rw [TimeSorted, List.pairwise_cons] at hs
    simp only [List.foldl_cons]
    cases hkp with
    | head =>
      exact exists_co_foldl_insert s (mem_insertKeyframe_self _ _ _)
        (fun r hr => ne_of_gt (hs.1 r hr))
    | tail _ hkp => exact ih hs.2 _ kp hkp

theorem mem_foldl_insert_of_ne (s : ℚ) {src : List KeyframePoint} {q : KeyframePoint} :
    ∀ {acc : List KeyframePoint}, q ∈ acc → (∀ kp ∈ src, kp.co.1 ≠ q.co.1) →
      q ∈ src.foldl (fun pts kp => insertKeyframe kp.co.1 (kp.co.2 * s) pts) acc := by
  induction src with
  | nil => intro acc h _; exact h
  | cons kp src' ih =>
    intro acc h hne
    exact ih
      (mem_insertKeyframe_of_ne _ _ h (fun hc => hne kp (List.mem_cons_self _ _) hc.symm))
      (fun k hk => hne k (List.mem_cons_of_mem _ hk))

theorem foldl_insert_sorted (s : ℚ) (src : List KeyframePoint) :
    ∀ acc : List KeyframePoint, TimeSorted acc →
      TimeSorted (src.foldl (fun pts kp => insertKeyframe kp.co.1 (kp.co.2 * s) pts) acc) := by
  induction src with
  | nil => intro acc h; exact h
  | cons kp src' ih => intro acc h; exact ih _ (insertKeyframe_sorted _ _ h)

theorem foldl_insert_id (s : ℚ) (src : List KeyframePoint) :
    ∀ pts : List KeyframePoint, TimeSorted pts →
      (∀ kp ∈ src, ∃ q ∈ pts, q.co = (kp.co.1, kp.co.2 * s)) →
      src.foldl (fun acc kp => insertKeyframe kp.co.1 (kp.co.2 * s) acc) pts = pts := by
  induction src with
  | nil => intro pts _ _; rfl
  | cons kp src' ih =>
    intro pts hs hc
    obtain ⟨q, hq, hco⟩ := hc kp (List.mem_cons_self _ _)
    simp only [List.foldl_cons]
    rw [insertKeyframe_eq_self hs hq hco]
    exact ih pts hs (fun k hk => hc k (List.mem_cons_of_mem _ hk))

/-! ### Full-point insertion (swap path) -/

theorem insertKeyframeFull_cons_gt {d p : KeyframePoint} (ps : List KeyframePoint)
    (h1 : ¬ d.co.1 < p.co.1) (h2 : d.co.1 ≠ p.co.1) :
    insertKeyframeFull d (p :: ps) = p :: insertKeyframeFull d ps := by
  simp only [insertKeyframeFull]
  rw [if_neg h1, if_neg h2]

theorem insertKeyframeFull_append {pts : List KeyframePoint} {d : KeyframePoint}
    (h : ∀ q ∈ pts, q.co.1 < d.co.1) :
    insertKeyframeFull d pts = pts ++ [d] := by
  induction pts with
  | nil => rfl
  | cons p ps ih =>
    have hp := h p (List.mem_cons_self _ _)
    have h1 : ¬ d.co.1 < p.co.1 := fun hc => absurd (lt_trans hp hc) (lt_irrefl _)
    have h2 : d.co.1 ≠ p.co.1 := fun hc => absurd (hc ▸ hp) (lt_irrefl _)
    rw [insertKeyframeFull_cons_gt ps h1 h2, List.cons_append,
      ih (fun q hq => h q (List.mem_cons_of_mem _ hq))]

theorem findPts_foldl_updatePts_same (tpath : String) (j : Int)
    (f : KeyframePoint → List KeyframePoint → List KeyframePoint) (live : List KeyframePoint) :
    ∀ a : Action,
      findPts (live.foldl (fun acc kp => updatePts acc tpath j (f kp)) a) tpath j =
        (findPts a tpath j).map (fun pts => live.foldl (fun pts kp => f kp pts) pts) := by
  induction live with
  | nil =>
    intro a
    simp only [List.foldl_nil]
    cases findPts a tpath j <;> rfl
  | cons kp live' ih =>
    intro a
    simp only [List.foldl_cons]
    rw [ih, findPts_updatePts_same]
    cases findPts a tpath j <;> rfl

theorem findFCurve_foldl_updatePts_ne (tpath : String) (j : Int)
    (f : KeyframePoint → List KeyframePoint → List KeyframePoint) (live : List KeyframePoint)
    {p' : String} {i' : Int} (h : ¬ (p' = tpath ∧ i' = j)) :
    ∀ a : Action,
      findFCurve (live.foldl (fun acc kp => updatePts acc tpath j (f kp)) a) p' i' =
        findFCurve a p' i' := by
  induction live with
  | nil => intro a; rfl
  | cons kp live' ih =>
    intro a
    simp only [List.foldl_cons]
    rw [ih, findFCurve_updatePts_ne a _ h]

/-! ### Characterization of the per-channel transfer step -/

/-- The action component of `processChannel` (it does not depend on the
accumulated messages). -/
def pcAction (source_axes : List String) (replace_all : Bool) (src tgt : String)
    (a : Action) (fc : FCurve) : Action :=
  (processChannel source_axes replace_all src tgt (a, []) fc).1

theorem foldl_insert_pair_fst (tpath : String) (j : Int) (s : ℚ)
    (live : List KeyframePoint) :
    ∀ (a : Action) (ms₁ ms₂ : List Msg),
      (live.foldl (fun st2 kp =>
        (updatePts st2.1 tpath j (insertKeyframe kp.co.1 (kp.co.2 * s)),
         st2.2 ++ [.infoSrcKey kp.co.1 kp.co.2 (kp.co.2 * s),
                   .infoTgtKey kp.co.1 (kp.co.2 * s) j])) (a, ms₁)).1 =
      (live.foldl (fun st2 kp =>
        (updatePts st2.1 tpath j (insertKeyframe kp.co.1 (kp.co.2 * s)),
         st2.2 ++ [.infoSrcKey kp.co.1 kp.co.2 (kp.co.2 * s),
                   .infoTgtKey kp.co.1 (kp.co.2 * s) j])) (a, ms₂)).1 := by
  induction live with
  | nil => intro a ms₁ ms₂; rfl
  | cons kp live' ih =>
    intro a ms₁ ms₂
    simp only [List.foldl_cons]
    exact ih _ _ _

theorem processChannel_fst (source_axes : List String) (replace_all : Bool)
    (src tgt : String) (a : Action) (ms : List Msg) (fc : FCurve) :
    (processChannel source_axes replace_all src tgt (a, ms) fc).1 =
      pcAction source_axes replace_all src tgt a fc := by
  unfold pcAction processChannel
  by_cases hm : matchesSrc src fc
  · simp only [if_neg (not_not_intro hm)]
    cases hr : resolveChannel source_axes tgt fc with
    | badIndex i => rfl
    | badLabel label => rfl
    | ok tpath j s =>
      dsimp only
      cases he : (livePts (if replace_all then setPts (ensureFCurve a tpath j) tpath j []
          else ensureFCurve a tpath j) fc).isEmpty
      · simp only [he, Bool.false_eq_true, if_false]
        exact foldl_insert_pair_fst tpath j s _ _ _ _
      · simp only [he, if_true]
  · simp only [if_pos hm]

theorem pcAction_skip {src : String} {fc : FCurve} (hm : ¬ matchesSrc src fc)
    (source_axes : List String) (replace_all : Bool) (tgt : String) (a : Action) :
    pcAction source_axes replace_all src tgt a fc = a := by
  unfold pcAction processChannel
  rw [if_pos hm]

theorem pcAction_bad {source_axes : List String} {src tgt : String} {fc : FCurve}
    (replace_all : Bool) (a : Action)
    (hr : ∀ tpath j s, resolveChannel source_axes tgt fc ≠ .ok tpath j s) :
    pcAction source_axes replace_all src tgt a fc = a := by
  unfold pcAction processChannel
  by_cases hm : matchesSrc src fc
  · simp only [if_neg (not_not_intro hm)]
    cases hh : resolveChannel source_axes tgt fc with
    | badIndex i => rfl
    | badLabel label => rfl
    | ok tpath j s => exact absurd hh (hr tpath j s)
  · rw [if_pos hm]

theorem pcAction_char {source_axes : List String} {src tgt : String} {fc : FCurve}
    {tpath : String} {j : Int} {s : ℚ}
    (replace_all : Bool) (a : Action)
    (hm : matchesSrc src fc)
    (hr : resolveChannel source_axes tgt fc = .ok tpath j s) :
    pcAction source_axes replace_all src tgt a fc =
      (livePts (if replace_all then setPts (ensureFCurve a tpath j) tpath j []
          else ensureFCurve a tpath j) fc).foldl
        (fun acc kp => updatePts acc tpath j (insertKeyframe kp.co.1 (kp.co.2 * s)))
        (if replace_all then setPts (ensureFCurve a tpath j) tpath j []
          else ensureFCurve a tpath j) := by
  unfold pcAction processChannel
  simp only [if_neg (not_not_intro hm), hr]
  cases he : (livePts (if replace_all then setPts (ensureFCurve a tpath j) tpath j []
      else ensureFCurve a tpath j) fc).isEmpty
  · simp only [he, Bool.false_eq_true, if_false]
    generalize hgen : livePts (if replace_all then setPts (ensureFCurve a tpath j) tpath j []
      else ensureFCurve a tpath j) fc = live
    generalize (if replace_all then setPts (ensureFCurve a tpath j) tpath j []
      else ensureFCurve a tpath j) = a2
    clear he hgen
    generalize ([] : List Msg) ++ [Msg.infoMapping fc.array_index
      (source_axes.getD fc.array_index.toNat "") j s] = ms0
    induction live generalizing a2 ms0 with
    | nil => rfl
    | cons kp live' ih =>
      simp only [List.foldl_cons]
      exact ih _ _
  · rw [List.isEmpty_iff] at he
    simp only [he, List.isEmpty_nil, if_true, List.foldl_nil]

theorem livePts_congr {a a' : Action} (fc : FCurve)
    (h : findFCurve a' fc.data_path fc.array_index = findFCurve a fc.data_path fc.array_index) :
    livePts a' fc = livePts a fc := by
  unfold livePts
  rw [h]

theorem findFCurve_pcAction_ne {source_axes : List String} {src tgt : String} {fc : FCurve}
    {tpath : String} {j : Int} {s : ℚ}
    (replace_all : Bool) (a : Action)
    (hm : matchesSrc src fc)
    (hr : resolveChannel source_axes tgt fc = .ok tpath j s)
    {p' : String} {i' : Int} (h : ¬ (p' = tpath ∧ i' = j)) :
    findFCurve (pcAction source_axes replace_all src tgt a fc) p' i' =
      findFCurve a p' i' := by
  rw [pcAction_char replace_all a hm hr]
  rw [findFCurve_foldl_updatePts_ne _ _ _ _ h]
  cases replace_all
  · simp only [Bool.false_eq_true, if_false]
    exact findFCurve_ensure_ne a h
  · simp only [if_true]
    unfold setPts
    rw [findFCurve_updatePts_ne _ _ h]
    exact findFCurve_ensure_ne a h

theorem livePts_pcAction_stage {a : Action} {fc : FCurve} {tpath : String} {j : Int}
    (replace_all : Bool)
    (hkey : ¬ (fc.data_path = tpath ∧ fc.array_index = j)) :
    livePts (if replace_all then setPts (ensureFCurve a tpath j) tpath j []
      else ensureFCurve a tpath j) fc = livePts a fc := by
  apply livePts_congr
  cases replace_all
  · simp only [Bool.false_eq_true, if_false]
    exact findFCurve_ensure_ne a hkey
  · simp only [if_true]
    unfold setPts
    rw [findFCurve_updatePts_ne _ _ hkey]
    exact findFCurve_ensure_ne a hkey

/-- The heart of the transfer: after `processChannel` handles a matching,
resolving source channel, the target channel holds exactly the fold of
time-ordered inserts of the scaled source values over its prior content
(cleared first when `replace_all`). -/
theorem findPts_pcAction_target {source_axes : List String} {src tgt : String} {fc : FCurve}
    {tpath : String} {j : Int} {s : ℚ}
    (replace_all : Bool) (a : Action)
    (hm : matchesSrc src fc)
    (hr : resolveChannel source_axes tgt fc = .ok tpath j s)
    (hkey : ¬ (fc.data_path = tpath ∧ fc.array_index = j)) :
    findPts (pcAction source_axes replace_all src tgt a fc) tpath j =
      some ((livePts a fc).foldl (fun pts kp => insertKeyframe kp.co.1 (kp.co.2 * s) pts)
        (if replace_all then [] else (findPts a tpath j).getD [])) := by
  rw [pcAction_char replace_all a hm hr]
  rw [livePts_pcAction_stage replace_all hkey]
  rw [findPts_foldl_updatePts_same]
  have hbase : findPts (if replace_all then setPts (ensureFCurve a tpath j) tpath j []
      else ensureFCurve a tpath j) tpath j =
      some (if replace_all then [] else (findPts a tpath j).getD []) := by
    cases replace_all
    · simp only [Bool.false_eq_true, if_false]
      exact findFCurve_ensure_same a tpath j
    · simp only [if_true]
      unfold setPts
      rw [findPts_updatePts_same, findFCurve_ensure_same a tpath j]
      rfl
  rw [hbase]
  rfl

theorem foldl_insertFull_rebuild (dat : List KeyframePoint) :
    ∀ acc : List KeyframePoint, TimeSorted dat →
      (∀ q ∈ acc, ∀ d ∈ dat, q.co.1 < d.co.1) →
      dat.foldl (fun pts d => insertKeyframeFull d pts) acc = acc ++ dat := by
  induction dat with
  | nil => intro acc _ _; simp
  | cons d dat' ih =>
    intro acc hs hlt
    rw [TimeSorted, List.pairwise_cons] at hs
    simp only [List.foldl_cons]
    rw [insertKeyframeFull_append (fun q hq => hlt q hq d (List.mem_cons_self _ _))]
    rw [ih (acc ++ [d]) hs.2 ?_]
    · simp
    · intro q hq k hk
      rcases List.mem_append.mp hq with hq | hq
      · exact hlt q hq k (List.mem_cons_of_mem _ hk)
      · rw [List.mem_singleton.mp hq]
        exact hs.1 k hk

/-! ### Concrete example data -/

/-- Source bone `A` with one location-X channel holding `[(1, 2), (10, -3)]`. -/
def exActionC1 : Action :=
  ⟨[⟨bonePath "A" "location", 0, [defaultKeyframe 1 2, defaultKeyframe 10 (-3)]⟩]⟩

/-- The single f-curve of `exActionC1`. -/
def exFcC1 : FCurve :=
  ⟨bonePath "A" "location", 0, [defaultKeyframe 1 2, defaultKeyframe 10 (-3)]⟩

/-- Armature with bones `A`, `B`; `A` and `B` selected, `B` active (so `A`
is the source and `B` the target). -/
def exCtxC1 : Ctx :=
  ⟨some ⟨"ARMATURE", ["A", "B"], some ⟨some exActionC1⟩⟩, ["A", "B"], some "B"⟩

/-- Scene mapping source X to target label `Y-`. -/
def exSceneC1 : Scene :=
  ⟨"Y-", "Y+", "Z+", false, "X+", "Y+", "Z+", false, "", "", "", ""⟩

/-! ### Claim theorems -/

/-- C1: for every location channel of the source bone at axis index `i`
whose configured axis label resolves to `(j, s)`, the transfer step inserts
into the target bone's location channel at index `j`, for every source
keyframe point `(t, v)`, a point at time `t` with value `v * s` (first
conjunct, over the per-channel transfer step the operators run); in
particular, with mapping source-X→"Y-" and source points
`[(1, 2), (10, -3)]`, the target Y channel after the copy operator ends as
`[(1, -2), (10, 3)]` (second conjunct, end to end). -/
theorem claim_C1 :
    (∀ (source_axes : List String) (replace_all : Bool) (src tgt : String)
        (a : Action) (fc : FCurve) (tpath : String) (j : Int) (s : ℚ),
      matchesSrc src fc = true →
      resolveChannel source_axes tgt fc = .ok tpath j s →
      ¬ (fc.data_path = tpath ∧ fc.array_index = j) →
      findFCurve a fc.data_path fc.array_index = some fc →
      TimeSorted fc.keyframe_points →
      ∀ kp ∈ fc.keyframe_points,
        ∃ q ∈ (findPts (pcAction source_axes replace_all src tgt a fc) tpath j).getD [],
          q.co = (kp.co.1, kp.co.2 * s)) ∧
    (ctxAction (copyOneExec "X" false exSceneC1 exCtxC1).ctx).map
        (fun a => (findPts a (bonePath "B" "location") 1).map (List.map (·.co))) =
      some (some [(1, -2), (10, 3)]) := by
  constructor
  · intro source_axes replace_all src tgt a fc tpath j s hm hr hkey hfind hsorted kp hkp
    have hlive : livePts a fc = fc.keyframe_points := by
      unfold livePts
      rw [hfind]
    rw [findPts_pcAction_target replace_all a hm hr hkey, hlive]
    simp only [Option.getD_some]
    exact foldl_insert_contains s hsorted _ kp hkp
  · rw [show ((-2) : ℚ) = 2 * (-1) by norm_num, show ((3) : ℚ) = (-3) * (-1) by norm_num]
    rfl

/-- Witness for C1: the general conjunct applied at the concrete example
(source point `(1, 2)`, mapping `Y-`) yields a target point `(1, -2)`. -/
theorem claim_C1_witness :
    ∃ q ∈ (findPts (pcAction ["Y-", "Y+", "Z+"] false "A" "B" exActionC1 exFcC1)
        (bonePath "B" "location") 1).getD [],
      q.co = (1, -2) := by
  have h := claim_C1.1 ["Y-", "Y+", "Z+"] false "A" "B" exActionC1 exFcC1
    (bonePath "B" "location") 1 (-1) (by decide) (by decide) (by decide) (by decide)
    (by decide) (defaultKeyframe 1 2) (by decide)
  obtain ⟨q, hq, hco⟩ := h
  refine ⟨q, hq, ?_⟩
  rw [hco]
  norm_num [defaultKeyframe]

/-- C3: (first conjunct) a transfer step with `replace_all = true` leaves
the target channel holding exactly the scaled copies of the source points
— every keyframe point the target channel contained before is removed, and
every remaining point sits at a source time; (second conjunct) a transfer
step with `replace_all = false` leaves every pre-existing target point
whose time carries no source point untouched (it remains in the channel,
all fields intact). -/
theorem claim_C3 :
    (∀ (source_axes : List String) (src tgt : String) (a : Action) (fc : FCurve)
        (tpath : String) (j : Int) (s : ℚ),
      matchesSrc src fc = true →
      resolveChannel source_axes tgt fc = .ok tpath j s →
      ¬ (fc.data_path = tpath ∧ fc.array_index = j) →
      findFCurve a fc.data_path fc.array_index = some fc →
      TimeSorted fc.keyframe_points →
      findPts (pcAction source_axes true src tgt a fc) tpath j =
        some (fc.keyframe_points.map (fun kp => defaultKeyframe kp.co.1 (kp.co.2 * s))) ∧
      ∀ q ∈ (findPts (pcAction source_axes true src tgt a fc) tpath j).getD [],
        ∃ kp ∈ fc.keyframe_points, q.co.1 = kp.co.1) ∧
    (∀ (source_axes : List String) (src tgt : String) (a : Action) (fc : FCurve)
        (tpath : String) (j : Int) (s : ℚ) (q : KeyframePoint),
      matchesSrc src fc = true →
      resolveChannel source_axes tgt fc = .ok tpath j s →
      ¬ (fc.data_path = tpath ∧ fc.array_index = j) →
      findFCurve a fc.data_path fc.array_index = some fc →
      q ∈ (findPts a tpath j).getD [] →
      (∀ kp ∈ fc.keyframe_points, kp.co.1 ≠ q.co.1) →
      q ∈ (findPts (pcAction source_axes false src tgt a fc) tpath j).getD []) := by
  constructor
  · intro source_axes src tgt a fc tpath j s hm hr hkey hfind hsorted
    have hlive : livePts a fc = fc.keyframe_points := by
      unfold livePts
      rw [hfind]
    have hchar := findPts_pcAction_target true a hm hr hkey
    rw [hlive] at hchar
    simp only [if_true] at hchar
    rw [foldl_insert_scaled s fc.keyframe_points [] hsorted (by intro q hq; cases hq)]
      at hchar
    simp only [List.nil_append] at hchar
    refine ⟨hchar, ?_⟩
    intro q hq
    rw [hchar] at hq
    simp only [Option.getD_some, List.mem_map] at hq
    obtain ⟨kp, hkp, rfl⟩ := hq
    exact ⟨kp, hkp, rfl⟩
  · intro source_axes src tgt a fc tpath j s q hm hr hkey hfind hq hne
    have hlive : livePts a fc = fc.keyframe_points := by
      unfold livePts
      rw [hfind]
    rw [findPts_pcAction_target false a hm hr hkey, hlive]
    simp only [Bool.false_eq_true, if_false, Option.getD_some]
    exact mem_foldl_insert_of_ne s hq hne

/-- Witness for C3 at a concrete input: source channel `[(1, 2)]` mapped by
`Y-` against a target channel pre-holding `(5, 99)`: with replace-all the
old point is gone (channel is exactly `[(1, -2)]`, and every final time is
a source time, so frame 5 is gone); without replace-all the `(5, 99)` point
persists. -/
theorem claim_C3_witness :
    (findPts (pcAction ["Y-", "Y+", "Z+"] true "A" "B"
        ⟨[⟨bonePath "A" "location", 0, [defaultKeyframe 1 2]⟩,
          ⟨bonePath "B" "location", 1, [defaultKeyframe 5 99]⟩]⟩
        ⟨bonePath "A" "location", 0, [defaultKeyframe 1 2]⟩)
        (bonePath "B" "location") 1 =
      some [defaultKeyframe 1 (2 * (-1))]) ∧
    defaultKeyframe 5 99 ∈
      (findPts (pcAction ["Y-", "Y+", "Z+"] false "A" "B"
        ⟨[⟨bonePath "A" "location", 0, [defaultKeyframe 1 2]⟩,
          ⟨bonePath "B" "location", 1, [defaultKeyframe 5 99]⟩]⟩
        ⟨bonePath "A" "location", 0, [defaultKeyframe 1 2]⟩)
        (bonePath "B" "location") 1).getD [] := by
  constructor
  · have h := (claim_C3.1 ["Y-", "Y+", "Z+"] "A" "B"
      ⟨[⟨bonePath "A" "location", 0, [defaultKeyframe 1 2]⟩,
        ⟨bonePath "B" "location", 1, [defaultKeyframe 5 99]⟩]⟩
      ⟨bonePath "A" "location", 0, [defaultKeyframe 1 2]⟩
      (bonePath "B" "location") 1 (-1)
      (by decide) (by decide) (by decide) (by decide) (by decide)).1
    simpa using h
  · have h := claim_C3.2 ["Y-", "Y+", "Z+"] "A" "B"
      ⟨[⟨bonePath "A" "location", 0, [defaultKeyframe 1 2]⟩,
        ⟨bonePath "B" "location", 1, [defaultKeyframe 5 99]⟩]⟩
      ⟨bonePath "A" "location", 0, [defaultKeyframe 1 2]⟩
      (bonePath "B" "location") 1 (-1) (defaultKeyframe 5 99)
      (by decide) (by decide) (by decide) (by decide) (by decide) (by decide)
    exact h

/-- C10: a transfer step with `replace_all = true` on a source location
channel that exists but has zero keyframe points still get-or-creates the
target channel and clears it — the target ends present with zero keyframes
— while the axis is reported skipped with the no-keyframe-data warning:
the skip is not mutation-free. -/
theorem claim_C10 :
    ∀ (source_axes : List String) (src tgt : String) (a : Action) (ms : List Msg)
      (fc : FCurve) (tpath : String) (j : Int) (s : ℚ),
      matchesSrc src fc = true →
      resolveChannel source_axes tgt fc = .ok tpath j s →
      ¬ (fc.data_path = tpath ∧ fc.array_index = j) →
      findFCurve a fc.data_path fc.array_index = some fc →
      fc.keyframe_points = [] →
      (processChannel source_axes true src tgt (a, ms) fc).1 =
        setPts (ensureFCurve a tpath j) tpath j [] ∧
      findPts ((processChannel source_axes true src tgt (a, ms) fc).1) tpath j =
        some [] ∧
      (processChannel source_axes true src tgt (a, ms) fc).2 =
        ms ++ [.infoMapping fc.array_index (source_axes.getD fc.array_index.toNat "") j s,
               .warnNoKeyData fc.array_index] ∧
      Msg.severity (.warnNoKeyData fc.array_index) = .Warning := by
  intro source_axes src tgt a ms fc tpath j s hm hr hkey hfind hempty
  have hlive : livePts (setPts (ensureFCurve a tpath j) tpath j []) fc = [] := by
    have hst := livePts_pcAction_stage (a := a) true hkey
    simp only [if_true] at hst
    rw [hst]
    unfold livePts
    rw [hfind]
    exact hempty
  unfold processChannel
  rw [if_neg (not_not_intro hm), hr]
  simp only [if_true]
  rw [hlive]
  simp only [List.isEmpty_nil, if_true]
  unfold setPts
  rw [findPts_updatePts_same, findFCurve_ensure_same a tpath j]
  exact ⟨trivial, rfl, by simp, rfl⟩

/-! ### The flip operator -/

theorem ctxAction_setAction {c : Ctx} {obj : BObject} {ad : AnimData} {a₀ : Action}
    (hobj : c.obj = some obj) (had : obj.animation_data = some ad)
    (ha : ad.action = some a₀) (a' : Action) :
    ctxAction (setAction c a') = some a' := by
  unfold ctxAction setAction
  simp [hobj, had, ha]

/-- C7: on an existing channel `(bone, prop, axis)`, the flip operator
finishes and maps every keyframe point in place through `flipKP` — which
negates exactly the value and the two handle ordinates, keeping the time,
both handle abscissas and all metadata — so the point count is unchanged;
on an absent channel it cancels with the channel-not-found warning and
mutates nothing. -/
theorem claim_C7 :
    (∀ (p : KeyframePoint),
      (flipKP p).co.1 = p.co.1 ∧ (flipKP p).co.2 = -p.co.2 ∧
      (flipKP p).handle_left.1 = p.handle_left.1 ∧
      (flipKP p).handle_left.2 = -p.handle_left.2 ∧
      (flipKP p).handle_right.1 = p.handle_right.1 ∧
      (flipKP p).handle_right.2 = -p.handle_right.2 ∧
      (flipKP p).interpolation = p.interpolation ∧ (flipKP p).easing = p.easing ∧
      (flipKP p).handle_left_type = p.handle_left_type ∧
      (flipKP p).handle_right_type = p.handle_right_type) ∧
    (∀ (prop : String) (axis : Int) (c : Ctx) (obj : BObject) (bone : String)
        (a : Action) (fc : FCurve),
      c.obj = some obj → obj.otype = "ARMATURE" →
      c.active_pose_bone = some bone →
      obj.animation_data = some ⟨some a⟩ →
      findFCurve a (bonePath bone prop) axis = some fc →
      (flipExec prop axis c).outcome = .FINISHED ∧
      ctxAction (flipExec prop axis c).ctx =
        some (updatePts a (bonePath bone prop) axis (fun pts => pts.map flipKP)) ∧
      (∀ a', ctxAction (flipExec prop axis c).ctx = some a' →
        findPts a' (bonePath bone prop) axis = some (fc.keyframe_points.map flipKP) ∧
        ((findPts a' (bonePath bone prop) axis).getD []).length =
          fc.keyframe_points.length ∧
        (∀ p' i', ¬ (p' = bonePath bone prop ∧ i' = axis) →
          findPts a' p' i' = findPts a p' i'))) ∧
    (∀ (prop : String) (axis : Int) (c : Ctx) (obj : BObject) (bone : String)
        (a : Action),
      c.obj = some obj → obj.otype = "ARMATURE" →
      c.active_pose_bone = some bone →
      obj.animation_data = some ⟨some a⟩ →
      findFCurve a (bonePath bone prop) axis = none →
      flipExec prop axis c = ⟨.CANCELLED, [.warnNoChannel prop axis], c⟩ ∧
      Msg.severity (.warnNoChannel prop axis) = .Warning) := by
  refine ⟨?_, ?_, ?_⟩
  · intro p
    exact ⟨rfl, rfl, rfl, rfl, rfl, rfl, rfl, rfl, rfl, rfl⟩
  · intro prop axis c obj bone a fc hobj hotype hact hanim hfc
    have harm : ¬ obj.otype ≠ "ARMATURE" := by rw [hotype]; simp
    unfold flipExec
    simp only [hobj, if_neg harm, hact, hanim, hfc]
    refine ⟨trivial, ?_, ?_⟩
    · exact ctxAction_setAction hobj hanim rfl _
    · intro a' ha'
      rw [ctxAction_setAction hobj hanim rfl _] at ha'
      have ha'' : a' = updatePts a (bonePath bone prop) axis (fun pts => pts.map flipKP) :=
        (Option.some_inj.mp ha').symm
      subst ha''
      refine ⟨?_, ?_, ?_⟩
      · rw [findPts_updatePts_same]
        unfold findPts
        rw [hfc]
        rfl
      · rw [findPts_updatePts_same]
        unfold findPts
        rw [hfc]
        simp
      · intro p' i' hne
        exact findPts_updatePts_ne a _ hne
  · intro prop axis c obj bone a hobj hotype hact hanim hfc
    have harm : ¬ obj.otype ≠ "ARMATURE" := by rw [hotype]; simp
    unfold flipExec
    simp only [hobj, if_neg harm, hact, hanim, hfc]
    exact ⟨trivial, rfl⟩

/-- Witness for C7: flipping the location-X channel of bone `A` holding
`(1, 5)` yields `(1, -5)` with both handle ordinates negated; flipping the
absent location-Z channel cancels with the warning and leaves the context
untouched. -/
theorem claim_C7_witness :
    ((flipExec "location" 0
        ⟨some ⟨"ARMATURE", ["A"], some ⟨some ⟨[⟨bonePath "A" "location", 0,
          [defaultKeyframe 1 5]⟩]⟩⟩⟩, ["A"], some "A"⟩).outcome = .FINISHED) ∧
    (∀ a', ctxAction (flipExec "location" 0
        ⟨some ⟨"ARMATURE", ["A"], some ⟨some ⟨[⟨bonePath "A" "location", 0,
          [defaultKeyframe 1 5]⟩]⟩⟩⟩, ["A"], some "A"⟩).ctx = some a' →
      findPts a' (bonePath "A" "location") 0 = some [flipKP (defaultKeyframe 1 5)]) ∧
    flipExec "location" 2
        ⟨some ⟨"ARMATURE", ["A"], some ⟨some ⟨[⟨bonePath "A" "location", 0,
          [defaultKeyframe 1 5]⟩]⟩⟩⟩, ["A"], some "A"⟩ =
      ⟨.CANCELLED, [.warnNoChannel "location" 2],
        ⟨some ⟨"ARMATURE", ["A"], some ⟨some ⟨[⟨bonePath "A" "location", 0,
          [defaultKeyframe 1 5]⟩]⟩⟩⟩, ["A"], some "A"⟩⟩ := by
  refine ⟨?_, ?_, ?_⟩
  · exact (claim_C7.2.1 "location" 0 _ _ "A" _ ⟨bonePath "A" "location", 0,
      [defaultKeyframe 1 5]⟩ rfl rfl rfl rfl (by decide)).1
  · intro a' ha'
    have h := ((claim_C7.2.1 "location" 0 _ _ "A" _ ⟨bonePath "A" "location", 0,
      [defaultKeyframe 1 5]⟩ rfl rfl rfl rfl (by decide)).2.2 a' ha').1
    simpa using h
  · exact (claim_C7.2.2 "location" 2 _ _ "A" _ rfl rfl rfl rfl (by decide)).1

/-! ### Precondition errors (C4) -/

/-- Scene with identity mappings and empty keywords. -/
def exSceneC4 : Scene :=
  ⟨"X+", "Y+", "Z+", false, "X+", "Y+", "Z+", false, "", "", "", ""⟩

/-- Armature whose `animation_data` exists but whose active action is
`None`. -/
def exCtxC4 : Ctx :=
  ⟨some ⟨"ARMATURE", ["A", "B"], some ⟨none⟩⟩, ["A", "B"], some "B"⟩

/-- C4 counterexample: with animation data present but no active action,
the copy-all-axes invocation does not fail: it returns `FINISHED` (not
`CANCELLED`) and reports overall success at Info severity — only its three
nested single-axis invocations report the error.  This refutes the claim
that every copy/transfer invocation "fails … and aborts". -/
theorem claim_C4_counterexample :
    (copyAllExec false exSceneC4 exCtxC4).outcome = .FINISHED ∧
    (copyAllExec false exSceneC4 exCtxC4).outcome ≠ .CANCELLED ∧
    (copyAllExec false exSceneC4 exCtxC4).msgs =
      [.errNoAnim, .errNoAnim, .errNoAnim, .infoAllDone] ∧
    Msg.severity .infoAllDone = .Info ∧
    (copyAllExec false exSceneC4 exCtxC4).ctx = exCtxC4 := by
  decide

/-- C4 amended: with precondition checks passing and animation data present
but no active action, the single-axis copy reports `NoAnimationData` at
Error severity, returns `CANCELLED` and mutates nothing, and remap-all does
the same whenever at least one bone pair forms; copy-all-axes also mutates
nothing and its three nested single-axis invocations each report the error,
but the copy-all-axes invocation itself returns `FINISHED` with a success
message.  With no animation data at all, single-axis copy and remap-all
(with at least one pair) instead raise an unhandled `AttributeError`, still
mutating nothing. -/
theorem claim_C4_amended :
    (∀ (scene : Scene) (c : Ctx) (obj : BObject) (b0 b1 act : String),
      c.obj = some obj → obj.otype = "ARMATURE" →
      c.selected_pose_bones = [b0, b1] → c.active_pose_bone = some act →
      (act = b0 ∨ act = b1) → obj.animation_data = some ⟨none⟩ →
      (∀ axis use2, copyOneExec axis use2 scene c = ⟨.CANCELLED, [.errNoAnim], c⟩) ∧
      Msg.severity .errNoAnim = .Error ∧
      (∀ use2, copyAllExec use2 scene c =
        ⟨.FINISHED, [.errNoAnim, .errNoAnim, .errNoAnim, .infoAllDone], c⟩) ∧
      ((computePairs obj.pose_bone_names c.selected_pose_bones
          scene.primary_suffix).isEmpty = false →
        remapAllExec scene c = ⟨.CANCELLED, [.errNoAnim], c⟩)) ∧
    (∀ (scene : Scene) (c : Ctx) (obj : BObject) (b0 b1 act : String),
      c.obj = some obj → obj.otype = "ARMATURE" →
      c.selected_pose_bones = [b0, b1] → c.active_pose_bone = some act →
      (act = b0 ∨ act = b1) → obj.animation_data = none →
      (∀ axis use2, copyOneExec axis use2 scene c = ⟨.EXCEPT "AttributeError", [], c⟩) ∧
      ((computePairs obj.pose_bone_names c.selected_pose_bones
          scene.primary_suffix).isEmpty = false →
        remapAllExec scene c = ⟨.EXCEPT "AttributeError", [], c⟩)) := by
  constructor
  · intro scene c obj b0 b1 act hobj hotype hsel hact hmem hanim
    have harm : ¬ obj.otype ≠ "ARMATURE" := by rw [hotype]; simp
    have hcopy : ∀ axis use2, copyOneExec axis use2 scene c =
        ⟨.CANCELLED, [.errNoAnim], c⟩ := by
      intro axis use2
      unfold copyOneExec
      simp only [hobj, if_neg harm, hsel, hact, if_neg (not_not_intro hmem), hanim]
    refine ⟨hcopy, rfl, ?_, ?_⟩
    · intro use2
      unfold copyAllExec
      simp only [hobj, if_neg harm, hsel, hact, if_neg (not_not_intro hmem),
        List.foldl_cons, List.foldl_nil, hcopy]
      rfl
    · intro hpairs
      unfold remapAllExec
      have hne : c.selected_pose_bones.isEmpty = false := by rw [hsel]; rfl
      simp only [hobj, if_neg harm, hne, Bool.false_eq_true, if_false, hpairs, hanim]
  · intro scene c obj b0 b1 act hobj hotype hsel hact hmem hanim
    have harm : ¬ obj.otype ≠ "ARMATURE" := by rw [hotype]; simp
    refine ⟨?_, ?_⟩
    · intro axis use2
      unfold copyOneExec
      simp only [hobj, if_neg harm, hsel, hact, if_neg (not_not_intro hmem), hanim]
    · intro hpairs
      unfold remapAllExec
      have hne : c.selected_pose_bones.isEmpty = false := by rw [hsel]; rfl
      simp only [hobj, if_neg harm, hne, Bool.false_eq_true, if_false, hpairs, hanim]

/-- Witness for the amended C4 at concrete contexts: the action-less
armature yields `CANCELLED` plus the Error-severity report for a single-axis
copy, and `FINISHED` for copy-all-axes; the armature with no animation data
at all yields the `AttributeError` outcome. -/
theorem claim_C4_amended_witness :
    copyOneExec "X" false exSceneC4 exCtxC4 = ⟨.CANCELLED, [.errNoAnim], exCtxC4⟩ ∧
    copyAllExec false exSceneC4 exCtxC4 =
      ⟨.FINISHED, [.errNoAnim, .errNoAnim, .errNoAnim, .infoAllDone], exCtxC4⟩ ∧
    copyOneExec "X" false exSceneC4
        ⟨some ⟨"ARMATURE", ["A", "B"], none⟩, ["A", "B"], some "B"⟩ =
      ⟨.EXCEPT "AttributeError", [],
        ⟨some ⟨"ARMATURE", ["A", "B"], none⟩, ["A", "B"], some "B"⟩⟩ := by
  have h1 := claim_C4_amended.1 exSceneC4 exCtxC4 ⟨"ARMATURE", ["A", "B"], some ⟨none⟩⟩
    "A" "B" "B" rfl rfl rfl rfl (Or.inr rfl) rfl
  have h2 := claim_C4_amended.2 exSceneC4
    ⟨some ⟨"ARMATURE", ["A", "B"], none⟩, ["A", "B"], some "B"⟩
    ⟨"ARMATURE", ["A", "B"], none⟩ "A" "B" "B" rfl rfl rfl rfl (Or.inr rfl) rfl
  exact ⟨h1.1 "X" false, h1.2.2.1 false, h2.1 "X" false⟩

/-! ### Profile selection (C5) -/

theorem isPrefixOf_iff_exists {sub l : List Char} :
    sub.isPrefixOf l = true ↔ ∃ post, l = sub ++ post := by
  rw [List.isPrefixOf_iff_prefix]
  exact ⟨fun ⟨t, ht⟩ => ⟨t, ht.symm⟩, fun ⟨t, ht⟩ => ⟨t, ht.symm⟩⟩

theorem infixOfChars_iff (sub : List Char) :
    ∀ l : List Char, infixOfChars sub l = true ↔ ∃ pre post, l = pre ++ sub ++ post := by
  intro l
  induction l with
  | nil =>
    unfold infixOfChars
    rw [List.isEmpty_iff]
    constructor
    · rintro rfl
      exact ⟨[], [], rfl⟩
    · rintro ⟨pre, post, h⟩
      rcases List.append_eq_nil.mp h.symm with ⟨h1, h2⟩
      exact (List.append_eq_nil.mp h1).2
  | cons c rest ih =>
    unfold infixOfChars
    rw [Bool.or_eq_true]
    constructor
    · rintro (hp | hi)
      · obtain ⟨post, hpost⟩ := isPrefixOf_iff_exists.mp hp
        exact ⟨[], post, by simpa using hpost⟩
      · obtain ⟨pre, post, hrest⟩ := ih.mp hi
        exact ⟨c :: pre, post, by simp [hrest]⟩
    · rintro ⟨pre, post, h⟩
      cases pre with
      | nil =>
        exact Or.inl (isPrefixOf_iff_exists.mpr ⟨post, by simpa using h⟩)
      | cons p pre' =>
        simp only [List.cons_append, List.cons.injEq] at h
        exact Or.inr (ih.mpr ⟨pre', post, h.2⟩)

theorem pySubstr_iff (sub s : String) :
    pySubstr sub s = true ↔ ∃ pre post : List Char, s.data = pre ++ sub.data ++ post :=
  infixOfChars_iff sub.data s.data

/-- Scene used for the C5 counterexample: the primary profile is the
identity `X+` mapping without replace-all, the secondary profile maps
source X to `Y-` with replace-all, and the secondary mapper keyword is the
empty string. -/
def exSceneC5 : Scene :=
  ⟨"X+", "Y+", "Z+", false, "Y-", "Y+", "Z+", true, "", "_ik", "", ""⟩

/-- Source bone `A` (location X keyed at `(1, 2)`) paired with `A_ik`. -/
def exCtxC5 : Ctx :=
  ⟨some ⟨"ARMATURE", ["A", "A_ik"],
    some ⟨some ⟨[⟨bonePath "A" "location", 0, [defaultKeyframe 1 2]⟩]⟩⟩⟩,
   ["A", "A_ik"], some "A_ik"⟩

/-- C5 counterexample: the secondary mapper keyword is empty — not a
non-empty substring of the source bone's name — yet remap-all transfers
pair `(A, A_ik)` with the secondary profile: the target gets its point on
axis index 1 with the `Y-` sign flip (secondary mapping), and nothing on
axis index 0 (where the primary `X+` identity mapping would have put it).
This refutes "the secondary profile is used … exactly when the keyword is a
non-empty substring; otherwise the primary profile is used". -/
theorem claim_C5_counterexample :
    exSceneC5.secondary_mapper = "" ∧
    (ctxAction (remapAllExec exSceneC5 exCtxC5).ctx).map (fun a =>
      (findPts a (bonePath "A_ik" "location") 1).map (List.map (·.co))) =
      some (some [(1, -2)]) ∧
    (ctxAction (remapAllExec exSceneC5 exCtxC5).ctx).map (fun a =>
      findPts a (bonePath "A_ik" "location") 0) = some none := by
  refine ⟨rfl, ?_, ?_⟩
  · rw [show ((-2) : ℚ) = 2 * (-1) by norm_num]
    rfl
  · rfl

/-- C5 amended: `remapAllExec` chooses the per-pair profile by the Python
substring test `secondary_mapper in source_bone.name` (`profileFor`): the
secondary profile is used exactly when the keyword occurs contiguously in
the source bone's name, where the empty keyword occurs in every name — so
with the empty default keyword the secondary profile is always chosen;
otherwise the primary profile is used. -/
theorem claim_C5_amended :
    (∀ sub s : String, pySubstr sub s = true ↔
      ∃ pre post : List Char, s.data = pre ++ sub.data ++ post) ∧
    (∀ s : String, pySubstr "" s = true) ∧
    (∀ (scene : Scene) (name : String), pySubstr scene.secondary_mapper name = true →
      profileFor scene name = (secondaryAxes scene, scene.secondary_replace_all_keyframes)) ∧
    (∀ (scene : Scene) (name : String), pySubstr scene.secondary_mapper name = false →
      profileFor scene name = (primaryAxes scene, scene.replace_all_keyframes)) := by
  refine ⟨pySubstr_iff, ?_, ?_, ?_⟩
  · intro s
    exact (pySubstr_iff "" s).mpr ⟨[], s.data, rfl⟩
  · intro scene name h
    unfold profileFor
    rw [h]
    rfl
  · intro scene name h
    unfold profileFor
    rw [h]
    rfl

/-- Witness for the amended C5: the empty keyword is a substring of `"A"`,
so `profileFor` picks the secondary profile of `exSceneC5`; the keyword
`"xq"` does not occur in `"A"`, so the primary profile is picked. -/
theorem claim_C5_amended_witness :
    pySubstr "" "A" = true ∧
    profileFor exSceneC5 "A" = (secondaryAxes exSceneC5, true) ∧
    profileFor { exSceneC5 with secondary_mapper := "xq" } "A" =
      (primaryAxes exSceneC5, false) := by
  refine ⟨claim_C5_amended.2.1 "A", ?_, ?_⟩
  · exact claim_C5_amended.2.2.1 exSceneC5 "A" (by decide)
  · exact claim_C5_amended.2.2.2 { exSceneC5 with secondary_mapper := "xq" } "A" (by decide)

/-! ### Bone pairing (C6) -/

/-- The claim's reading of "suffix-stripped base name": the bone name with
its final `len(suffix)` characters removed — the identity for the empty
suffix.  (The code computes `name[:-len(suffix)]` instead, which is the
empty string when the suffix is empty.) -/
def specStrip (name suffix : String) : String :=
  ⟨name.data.take (name.data.length - suffix.data.length)⟩

/-- Scene with empty primary suffix (the registered default). -/
def exSceneC6 : Scene :=
  ⟨"X+", "Y+", "Z+", false, "X+", "Y+", "Z+", false, "", "", "", ""⟩

/-- Armature with the single bone `Arm`, selected. -/
def exCtxC6 : Ctx :=
  ⟨some ⟨"ARMATURE", ["Arm"], some ⟨some ⟨[]⟩⟩⟩, ["Arm"], some "Arm"⟩

/-- C6 counterexample: with the empty suffix, `"Arm"` ends with the suffix
and its suffix-stripped base name (in the claim's reading) is `"Arm"`
itself, which names a pose bone that is selected — so the claim predicts
the pair forms.  But the code computes the base via the Python slice
`name[:-0] = ''`, so no pair forms and the whole operation cancels with the
no-valid-pairs diagnostic. -/
theorem claim_C6_counterexample :
    pyEndswith "" "Arm" = true ∧
    specStrip "Arm" "" = "Arm" ∧
    ("Arm" ∈ (["Arm"] : List String)) ∧
    pySliceDropLast "Arm" (String.length "") = "" ∧
    computePairs ["Arm"] ["Arm"] "" = [] ∧
    remapAllExec exSceneC6 exCtxC6 = ⟨.CANCELLED, [.warnNoPairs], exCtxC6⟩ := by
  decide

/-- C6 amended: remap-all forms the pair `(s, t)` exactly when `t` is a
selected bone ending with the primary suffix whose base name — the Python
slice `t[:-len(suffix)]`, i.e. the name with the final `len(suffix)`
characters removed when the suffix is non-empty, but the empty string when
the suffix is empty — names a pose bone that is also selected.  Bones not
matching are excluded without error, and with zero resulting pairs the
operation returns `CANCELLED` with the no-valid-pairs diagnostic and
performs no mutation. -/
theorem claim_C6_amended :
    (∀ (pose sel : List String) (suffix : String) (s t : String),
      (s, t) ∈ computePairs pose sel suffix ↔
        (t ∈ sel ∧ pyEndswith suffix t = true ∧ s = pySliceDropLast t suffix.length ∧
         pose.contains s = true ∧ sel.contains s = true)) ∧
    (∀ (scene : Scene) (c : Ctx) (obj : BObject),
      c.obj = some obj → obj.otype = "ARMATURE" →
      c.selected_pose_bones.isEmpty = false →
      computePairs obj.pose_bone_names c.selected_pose_bones scene.primary_suffix = [] →
      remapAllExec scene c = ⟨.CANCELLED, [.warnNoPairs], c⟩) := by
  constructor
  · intro pose sel suffix s t
    unfold computePairs
    rw [List.mem_filterMap]
    constructor
    · rintro ⟨bn, hbn, hf⟩
      by_cases he : pyEndswith suffix bn = true
      · rw [if_pos he] at hf
        by_cases hc : (pose.contains (pySliceDropLast bn suffix.length) &&
            sel.contains (pySliceDropLast bn suffix.length)) = true
        · rw [if_pos hc] at hf
          obtain ⟨rfl, rfl⟩ := Prod.mk.injEq .. ▸ Option.some_inj.mp hf
          rcases Bool.and_eq_true .. |>.mp hc with ⟨h1, h2⟩
          exact ⟨hbn, he, rfl, h1, h2⟩
        · rw [if_neg hc] at hf
          cases hf
      · rw [if_neg he] at hf
        cases hf
    · rintro ⟨ht, he, rfl, h1, h2⟩
      refine ⟨t, ht, ?_⟩
      rw [if_pos he, if_pos (by rw [h1, h2]; rfl)]
  · intro scene c obj hobj hotype hne hpairs
    have harm : ¬ obj.otype ≠ "ARMATURE" := by rw [hotype]; simp
    unfold remapAllExec
    simp only [hobj, if_neg harm, hne, Bool.false_eq_true, if_false, hpairs,
      List.isEmpty_nil, if_true]

/-- Witness for the amended C6: with suffix `"_ik"` and bones
`{Arm, Arm_ik}` selected, the pair `(Arm, Arm_ik)` forms; and on the
concrete single-bone context with the empty suffix the operation cancels
with the no-valid-pairs diagnostic, untouched context. -/
theorem claim_C6_amended_witness :
    ("Arm", "Arm_ik") ∈ computePairs ["Arm", "Arm_ik"] ["Arm", "Arm_ik"] "_ik" ∧
    remapAllExec exSceneC6 exCtxC6 = ⟨.CANCELLED, [.warnNoPairs], exCtxC6⟩ := by
  constructor
  · exact (claim_C6_amended.1 ["Arm", "Arm_ik"] ["Arm", "Arm_ik"] "_ik" "Arm" "Arm_ik").mpr
      (by refine ⟨by decide, by decide, by decide, by decide, by decide⟩)
  · exact claim_C6_amended.2 exSceneC6 exCtxC6 ⟨"ARMATURE", ["Arm"], some ⟨some ⟨[]⟩⟩⟩
      rfl rfl (by decide) (by decide)

/-- Witness for C10: an empty source location-X channel of bone `A`, with
no pre-existing target channel on bone `B`: the target channel is created
and ends empty, and the warning is reported. -/
theorem claim_C10_witness :
    findPts ((processChannel ["Y-", "Y+", "Z+"] true "A" "B"
        (⟨[⟨bonePath "A" "location", 0, []⟩]⟩, []) ⟨bonePath "A" "location", 0, []⟩).1)
      (bonePath "B" "location") 1 = some [] ∧
    (processChannel ["Y-", "Y+", "Z+"] true "A" "B"
        (⟨[⟨bonePath "A" "location", 0, []⟩]⟩, []) ⟨bonePath "A" "location", 0, []⟩).2 =
      [.infoMapping 0 "Y-" 1 (-1), .warnNoKeyData 0] := by
  have h := claim_C10 ["Y-", "Y+", "Z+"] "A" "B" ⟨[⟨bonePath "A" "location", 0, []⟩]⟩ []
    ⟨bonePath "A" "location", 0, []⟩ (bonePath "B" "location") 1 (-1)
    (by decide) (by decide) (by decide) (by decide) (by decide)
  exact ⟨h.2.1, by rw [h.2.2.1]; rfl⟩

/-! ### Swap machinery -/

/-- Clearing a channel and re-inserting a point list in order (the swap
operator's write pattern for one channel). -/
def rebuildPts (dat : List KeyframePoint) : List KeyframePoint :=
  dat.foldl (fun pts d => insertKeyframeFull d pts) []

theorem rebuildPts_sorted_eq {dat : List KeyframePoint} (hs : TimeSorted dat) :
    rebuildPts dat = dat := by
  unfold rebuildPts
  rw [foldl_insertFull_rebuild dat [] hs (by intro q hq; cases hq)]
  rfl

theorem setPts_setPts_same (a : Action) (p : String) (i : Int)
    (x y : List KeyframePoint) :
    setPts (setPts a p i x) p i y = setPts a p i y := by
  unfold setPts
  rw [updatePts_updatePts_same]
  rfl

theorem setPts_comm (a : Action) {p p' : String} {i i' : Int}
    (x y : List KeyframePoint) (h : ¬ (p' = p ∧ i' = i)) :
    setPts (setPts a p i x) p' i' y = setPts (setPts a p' i' y) p i x :=
  updatePts_comm a _ _ h

theorem setPts_id {a : Action} {p : String} {i : Int} {fc : FCurve}
    (h : findFCurve a p i = some fc) :
    setPts a p i fc.keyframe_points = a := by
  unfold setPts
  apply updatePts_id
  intro g hg
  rw [h] at hg
  rw [← Option.some_inj.mp hg]

theorem updateFirst_cons (p : String) (i : Int)
    (f : List KeyframePoint → List KeyframePoint) (hd : FCurve) (tl : List FCurve) :
    updateFirst p i f (hd :: tl) =
      if (hd.data_path == p && hd.array_index == i) = true then
        { hd with keyframe_points := f hd.keyframe_points } :: tl
      else hd :: updateFirst p i f tl := rfl

theorem mem_updateFirst {p : String} {i : Int}
    {f : List KeyframePoint → List KeyframePoint} {l : List FCurve} {q : FCurve}
    (hq : q ∈ updateFirst p i f l) :
    q ∈ l ∨ ∃ fc ∈ l, q = { fc with keyframe_points := f fc.keyframe_points } := by
  induction l with
  | nil => cases hq
  | cons hd tl ih =>
    by_cases hk : (hd.data_path == p && hd.array_index == i) = true
    · rw [updateFirst_cons, if_pos hk] at hq
      cases hq with
      | head => exact Or.inr ⟨hd, List.mem_cons_self _ _, rfl⟩
      | tail _ hq => exact Or.inl (List.mem_cons_of_mem _ hq)
    · rw [updateFirst_cons, if_neg hk] at hq
      cases hq with
      | head => exact Or.inl (List.mem_cons_self _ _)
      | tail _ hq =>
        rcases ih hq with h | ⟨fc, hfc, rfl⟩
        · exact Or.inl (List.mem_cons_of_mem _ h)
        · exact Or.inr ⟨fc, List.mem_cons_of_mem _ hfc, rfl⟩

theorem SortedAction_setPts {a : Action} {pts : List KeyframePoint}
    (hs : SortedAction a) (hp : TimeSorted pts) (p : String) (i : Int) :
    SortedAction (setPts a p i pts) := by
  intro fc hfc
  rcases mem_updateFirst hfc with h | ⟨g, hg, rfl⟩
  · exact hs fc h
  · exact hp

theorem swapStep_skip {src tgt : String} {a : Action} {pr : String × Int}
    (h : findFCurve a (bonePath src pr.1) pr.2 = none ∨
         findFCurve a (bonePath tgt pr.1) pr.2 = none) :
    swapStep src tgt a pr = a := by
  simp only [swapStep]
  rcases h with h | h
  · rw [h]
  · rw [h]
    cases findFCurve a (bonePath src pr.1) pr.2 <;> rfl

theorem foldl_updateFull (p : String) (i : Int) (dat : List KeyframePoint) :
    ∀ (a : Action) (f : List KeyframePoint → List KeyframePoint),
      dat.foldl (fun acc d => updatePts acc p i (insertKeyframeFull d)) (updatePts a p i f) =
        updatePts a p i (fun pts => dat.foldl (fun pts d => insertKeyframeFull d pts) (f pts)) := by
  induction dat with
  | nil => intro a f; rfl
  | cons d dat' ih =>
    intro a f
    simp only [List.foldl_cons]
    rw [updatePts_updatePts_same]
    exact ih a _

theorem clear_then_fold (p : String) (i : Int) (dat : List KeyframePoint) (a : Action) :
    dat.foldl (fun acc d => updatePts acc p i (insertKeyframeFull d)) (setPts a p i []) =
      setPts a p i (rebuildPts dat) := by
  unfold setPts rebuildPts
  rw [foldl_updateFull]

theorem swapStep_char {src tgt : String} {a : Action} {pr : String × Int}
    {sfc tfc : FCurve}
    (hs : findFCurve a (bonePath src pr.1) pr.2 = some sfc)
    (ht : findFCurve a (bonePath tgt pr.1) pr.2 = some tfc)
    (hne : bonePath src pr.1 ≠ bonePath tgt pr.1) :
    swapStep src tgt a pr =
      setPts (setPts a (bonePath tgt pr.1) pr.2 (rebuildPts sfc.keyframe_points))
        (bonePath src pr.1) pr.2 (rebuildPts tfc.keyframe_points) := by
  have hne' : ¬ (bonePath tgt pr.1 = bonePath src pr.1 ∧ pr.2 = pr.2) :=
    fun hc => hne hc.1.symm
  have hne'' : ¬ (bonePath src pr.1 = bonePath tgt pr.1 ∧ pr.2 = pr.2) :=
    fun hc => hne hc.1
  simp only [swapStep]
  rw [hs, ht]
  dsimp only
  rw [clear_then_fold]
  rw [setPts_comm _ _ _ hne']
  rw [clear_then_fold]

theorem findFCurve_swapStep_ne (src tgt : String) (a : Action) (pr : String × Int)
    {p' : String} {i' : Int}
    (h1 : ¬ (p' = bonePath src pr.1 ∧ i' = pr.2))
    (h2 : ¬ (p' = bonePath tgt pr.1 ∧ i' = pr.2)) :
    findFCurve (swapStep src tgt a pr) p' i' = findFCurve a p' i' := by
  simp only [swapStep]
  cases hsf : findFCurve a (bonePath src pr.1) pr.2 with
  | none => cases findFCurve a (bonePath tgt pr.1) pr.2 <;> rfl
  | some sfc =>
    cases htf : findFCurve a (bonePath tgt pr.1) pr.2 with
    | none => rfl
    | some tfc =>
      dsimp only
      rw [findFCurve_foldl_updatePts_ne _ _ _ _ h1,
          findFCurve_foldl_updatePts_ne _ _ _ _ h2]
      unfold setPts
      rw [findFCurve_updatePts_ne _ _ h2, findFCurve_updatePts_ne _ _ h1]

theorem findFCurve_swapStep_src {src tgt : String} {a : Action} {pr : String × Int}
    {sfc tfc : FCurve}
    (hs : findFCurve a (bonePath src pr.1) pr.2 = some sfc)
    (ht : findFCurve a (bonePath tgt pr.1) pr.2 = some tfc)
    (hne : bonePath src pr.1 ≠ bonePath tgt pr.1) :
    findFCurve (swapStep src tgt a pr) (bonePath src pr.1) pr.2 =
      some { sfc with keyframe_points := rebuildPts tfc.keyframe_points } ∧
    findFCurve (swapStep src tgt a pr) (bonePath tgt pr.1) pr.2 =
      some { tfc with keyframe_points := rebuildPts sfc.keyframe_points } := by
  have hne'' : ¬ (bonePath src pr.1 = bonePath tgt pr.1 ∧ pr.2 = pr.2) :=
    fun hc => hne hc.1
  have hne' : ¬ (bonePath tgt pr.1 = bonePath src pr.1 ∧ pr.2 = pr.2) :=
    fun hc => hne hc.1.symm
  rw [swapStep_char hs ht hne]
  constructor
  · unfold setPts
    rw [findFCurve_updatePts_same]
    rw [findFCurve_updatePts_ne _ _ hne'']
    rw [hs]
    rfl
  · unfold setPts
    rw [findFCurve_updatePts_ne _ _ hne']
    rw [findFCurve_updatePts_same, ht]
    rfl

theorem swapStep_swapStep {src tgt : String} {a : Action} {pr : String × Int}
    (hne : bonePath src pr.1 ≠ bonePath tgt pr.1)
    (hsorted : SortedAction a) :
    swapStep src tgt (swapStep src tgt a pr) pr = a := by
  have hne'' : ¬ (bonePath src pr.1 = bonePath tgt pr.1 ∧ pr.2 = pr.2) :=
    fun hc => hne hc.1
  have hne' : ¬ (bonePath tgt pr.1 = bonePath src pr.1 ∧ pr.2 = pr.2) :=
    fun hc => hne hc.1.symm
  cases hsf : findFCurve a (bonePath src pr.1) pr.2 with
  | none =>
    rw [swapStep_skip (Or.inl hsf), swapStep_skip (Or.inl hsf)]
  | some sfc =>
    cases htf : findFCurve a (bonePath tgt pr.1) pr.2 with
    | none =>
      rw [swapStep_skip (Or.inr htf), swapStep_skip (Or.inr htf)]
    | some tfc =>
      have hsort_s : TimeSorted sfc.keyframe_points :=
        hsorted sfc (findFCurve_mem hsf).1
      have hsort_t : TimeSorted tfc.keyframe_points :=
        hsorted tfc (findFCurve_mem htf).1
      have h1 := findFCurve_swapStep_src hsf htf hne
      rw [swapStep_char h1.1 h1.2 hne]
      rw [swapStep_char hsf htf hne]
      simp only [rebuildPts_sorted_eq hsort_s, rebuildPts_sorted_eq hsort_t]
      rw [setPts_comm _ _ _ hne'']
      rw [setPts_setPts_same]
      rw [setPts_comm _ _ _ hne']
      rw [setPts_setPts_same]
      rw [setPts_id htf, setPts_id hsf]

theorem pair_ne_imp {pa pb : String} {ia ib : Int}
    (h : ((pa, ia) : String × Int) ≠ (pb, ib)) : ¬ (pa = pb ∧ ia = ib) := by
  intro hc
  exact h (by rw [hc.1, hc.2])

/-- The two channel keys `swapStep` touches for `x` are distinct from the
two it touches for `y`. -/
def StepKeysOK (src tgt : String) (x y : String × Int) : Prop :=
  ((bonePath src x.1, x.2) : String × Int) ≠ (bonePath src y.1, y.2) ∧
  ((bonePath src x.1, x.2) : String × Int) ≠ (bonePath tgt y.1, y.2) ∧
  ((bonePath tgt x.1, x.2) : String × Int) ≠ (bonePath src y.1, y.2) ∧
  ((bonePath tgt x.1, x.2) : String × Int) ≠ (bonePath tgt y.1, y.2)

instance (src tgt : String) (x y : String × Int) :
    Decidable (StepKeysOK src tgt x y) :=
  inferInstanceAs (Decidable (_ ∧ _ ∧ _ ∧ _))

/-- The two bones' paths differ for the property of `x`. -/
def SelfKeysOK (src tgt : String) (x : String × Int) : Prop :=
  bonePath src x.1 ≠ bonePath tgt x.1

instance (src tgt : String) (x : String × Int) : Decidable (SelfKeysOK src tgt x) :=
  inferInstanceAs (Decidable (_ ≠ _))

theorem StepKeysOK_symm {src tgt : String} {x y : String × Int}
    (h : StepKeysOK src tgt x y) : StepKeysOK src tgt y x :=
  ⟨h.1.symm, h.2.2.1.symm, h.2.1.symm, h.2.2.2.symm⟩

theorem findFCurve_swapStep_ne_of_keys {src tgt : String} (a : Action)
    {x pr : String × Int} (h : StepKeysOK src tgt x pr) :
    findFCurve (swapStep src tgt a x) (bonePath src pr.1) pr.2 =
      findFCurve a (bonePath src pr.1) pr.2 ∧
    findFCurve (swapStep src tgt a x) (bonePath tgt pr.1) pr.2 =
      findFCurve a (bonePath tgt pr.1) pr.2 :=
  ⟨findFCurve_swapStep_ne src tgt a x (pair_ne_imp h.1.symm) (pair_ne_imp h.2.2.1.symm),
   findFCurve_swapStep_ne src tgt a x (pair_ne_imp h.2.1.symm) (pair_ne_imp h.2.2.2.symm)⟩

theorem swapStep_comm {src tgt : String} (a : Action) {x y : String × Int}
    (hxx : SelfKeysOK src tgt x) (hyy : SelfKeysOK src tgt y)
    (hk : StepKeysOK src tgt x y) :
    swapStep src tgt (swapStep src tgt a x) y =
      swapStep src tgt (swapStep src tgt a y) x := by
  obtain ⟨hss, hst, hts, htt⟩ := hk
  have fyx := @findFCurve_swapStep_ne_of_keys src tgt a y x
    (StepKeysOK_symm ⟨hss, hst, hts, htt⟩)
  have fxy := @findFCurve_swapStep_ne_of_keys src tgt a x y ⟨hss, hst, hts, htt⟩
  cases hsx : findFCurve a (bonePath src x.1) x.2 with
  | none =>
    rw [swapStep_skip (Or.inl hsx), swapStep_skip (Or.inl (fyx.1.trans hsx))]
  | some sfx =>
    cases htx : findFCurve a (bonePath tgt x.1) x.2 with
    | none =>
      rw [swapStep_skip (Or.inr htx), swapStep_skip (Or.inr (fyx.2.trans htx))]
    | some tfx =>
      cases hsy : findFCurve a (bonePath src y.1) y.2 with
      | none =>
        rw [swapStep_skip (Or.inl hsy), swapStep_skip (Or.inl (fxy.1.trans hsy))]
      | some sfy =>
        cases hty : findFCurve a (bonePath tgt y.1) y.2 with
        | none =>
          rw [swapStep_skip (Or.inr hty), swapStep_skip (Or.inr (fxy.2.trans hty))]
        | some tfy =>
          rw [swapStep_char hsx htx hxx, swapStep_char hsy hty hyy]
          have h1 : findFCurve (setPts (setPts a (bonePath tgt x.1) x.2
              (rebuildPts sfx.keyframe_points)) (bonePath src x.1) x.2
              (rebuildPts tfx.keyframe_points)) (bonePath src y.1) y.2 = some sfy := by
            unfold setPts
            rw [findFCurve_updatePts_ne _ _ (pair_ne_imp hss.symm),
                findFCurve_updatePts_ne _ _ (pair_ne_imp hts.symm), hsy]
          have h2 : findFCurve (setPts (setPts a (bonePath tgt x.1) x.2
              (rebuildPts sfx.keyframe_points)) (bonePath src x.1) x.2
              (rebuildPts tfx.keyframe_points)) (bonePath tgt y.1) y.2 = some tfy := by
            unfold setPts
            rw [findFCurve_updatePts_ne _ _ (pair_ne_imp hst.symm),
                findFCurve_updatePts_ne _ _ (pair_ne_imp htt.symm), hty]
          have h3 : findFCurve (setPts (setPts a (bonePath tgt y.1) y.2
              (rebuildPts sfy.keyframe_points)) (bonePath src y.1) y.2
              (rebuildPts tfy.keyframe_points)) (bonePath src x.1) x.2 = some sfx := by
            unfold setPts
            rw [findFCurve_updatePts_ne _ _ (pair_ne_imp hss),
                findFCurve_updatePts_ne _ _ (pair_ne_imp hst), hsx]
          have h4 : findFCurve (setPts (setPts a (bonePath tgt y.1) y.2
              (rebuildPts sfy.keyframe_points)) (bonePath src y.1) y.2
              (rebuildPts tfy.keyframe_points)) (bonePath tgt x.1) x.2 = some tfx := by
            unfold setPts
            rw [findFCurve_updatePts_ne _ _ (pair_ne_imp hts),
                findFCurve_updatePts_ne _ _ (pair_ne_imp htt), htx]
          rw [swapStep_char h1 h2 hyy, swapStep_char h3 h4 hxx]
          rw [setPts_comm _ _ _ (pair_ne_imp hst.symm)]
          rw [setPts_comm _ _ _ (pair_ne_imp htt.symm)]
          rw [setPts_comm _ _ _ (pair_ne_imp hss.symm)]
          rw [setPts_comm _ _ _ (pair_ne_imp hts.symm)]

theorem foldl_swapStep_comm_single (src tgt : String) (x : String × Int) :
    ∀ (L : List (String × Int)) (b : Action),
      SelfKeysOK src tgt x →
      (∀ y ∈ L, SelfKeysOK src tgt y ∧ StepKeysOK src tgt x y) →
      swapStep src tgt (L.foldl (swapStep src tgt) b) x =
        L.foldl (swapStep src tgt) (swapStep src tgt b x) := by
  intro L
  induction L with
  | nil => intro b _ _; rfl
  | cons y L' ih =>
    intro b hx hL
    simp only [List.foldl_cons]
    rw [ih _ hx (fun z hz => hL z (List.mem_cons_of_mem _ hz))]
    rw [swapStep_comm b hx (hL y (List.mem_cons_self _ _)).1
      (hL y (List.mem_cons_self _ _)).2]

theorem SortedAction_swapStep {src tgt : String} {a : Action} (pr : String × Int)
    (hne : SelfKeysOK src tgt pr) (hs : SortedAction a) :
    SortedAction (swapStep src tgt a pr) := by
  cases hsf : findFCurve a (bonePath src pr.1) pr.2 with
  | none => rw [swapStep_skip (Or.inl hsf)]; exact hs
  | some sfc =>
    cases htf : findFCurve a (bonePath tgt pr.1) pr.2 with
    | none => rw [swapStep_skip (Or.inr htf)]; exact hs
    | some tfc =>
      rw [swapStep_char hsf htf hne]
      have hss := hs sfc (findFCurve_mem hsf).1
      have hts := hs tfc (findFCurve_mem htf).1
      exact SortedAction_setPts
        (SortedAction_setPts hs (by rw [rebuildPts_sorted_eq hss]; exact hss) _ _)
        (by rw [rebuildPts_sorted_eq hts]; exact hts) _ _

theorem foldl_swapStep_invol (src tgt : String) :
    ∀ (L : List (String × Int)) (a : Action),
      SortedAction a →
      (∀ x ∈ L, SelfKeysOK src tgt x) →
      L.Pairwise (StepKeysOK src tgt) →
      L.foldl (swapStep src tgt) (L.foldl (swapStep src tgt) a) = a := by
  intro L
  induction L with
  | nil => intro a _ _ _; rfl
  | cons x xs ih =>
    intro a hsorted hself hpw
    rw [List.pairwise_cons] at hpw
    simp only [List.foldl_cons]
    rw [foldl_swapStep_comm_single src tgt x xs (swapStep src tgt a x)
      (hself x (List.mem_cons_self _ _))
      (fun y hy => ⟨hself y (List.mem_cons_of_mem _ hy), hpw.1 y hy⟩)]
    rw [swapStep_swapStep (hself x (List.mem_cons_self _ _)) hsorted]
    exact ih a hsorted (fun y hy => hself y (List.mem_cons_of_mem _ hy)) hpw.2

/-! ### Context plumbing for the swap operator -/

theorem setAction_selected (c : Ctx) (a' : Action) :
    (setAction c a').selected_pose_bones = c.selected_pose_bones := by
  cases c; rfl

theorem setAction_active (c : Ctx) (a' : Action) :
    (setAction c a').active_pose_bone = c.active_pose_bone := by
  cases c; rfl

theorem setAction_setAction (c : Ctx) (x y : Action) :
    setAction (setAction c x) y = setAction c y := by
  rcases c with ⟨co, sel, ac⟩
  cases co with
  | none => rfl
  | some o =>
    rcases o with ⟨ot, pb, ad⟩
    cases ad with
    | none => rfl
    | some ad' =>
      rcases ad' with ⟨acO⟩
      cases acO <;> rfl

theorem setAction_self {c : Ctx} {a : Action} (h : ctxAction c = some a) :
    setAction c a = c := by
  rcases c with ⟨co, sel, ac⟩
  cases co with
  | none => exact absurd h (by simp [ctxAction])
  | some o =>
    rcases o with ⟨ot, pb, ad⟩
    cases ad with
    | none => exact absurd h (by simp [ctxAction])
    | some ad' =>
      rcases ad' with ⟨acO⟩
      cases acO with
      | none => exact absurd h (by simp [ctxAction])
      | some a₀ =>
        have : a₀ = a := by simpa [ctxAction] using h
        subst this
        rfl

theorem setAction_fields {c : Ctx} {obj : BObject} {a : Action}
    (hobj : c.obj = some obj) (hanim : obj.animation_data = some ⟨some a⟩)
    (a' : Action) :
    (setAction c a').obj = some ⟨obj.otype, obj.pose_bone_names, some ⟨some a'⟩⟩ := by
  rcases c with ⟨co, sel, ac⟩
  subst hobj
  rcases obj with ⟨ot, pb, ad⟩
  simp only [BObject.mk.injEq] at hanim ⊢
  unfold setAction
  simp only [Option.map_some]
  rw [show ad = some ⟨some a⟩ from hanim]
  rfl

theorem swapExec_run {c : Ctx} {obj : BObject} {b0 b1 act : String} {a : Action}
    (hobj : c.obj = some obj) (hotype : obj.otype = "ARMATURE")
    (hsel : c.selected_pose_bones = [b0, b1]) (hact : c.active_pose_bone = some act)
    (hmem : act = b0 ∨ act = b1) (hanim : obj.animation_data = some ⟨some a⟩) :
    swapExec c = ⟨.FINISHED, [.infoSwapDone (if b1 = act then b0 else b1) act],
      setAction c (propAxisPairs.foldl
        (swapStep (if b1 = act then b0 else b1) act) a)⟩ := by
  have harm : ¬ obj.otype ≠ "ARMATURE" := by rw [hotype]; simp
  unfold swapExec
  simp only [hobj, if_neg harm, hsel, hact, if_neg (not_not_intro hmem), hanim]

/-- C2: with both bones' channels time-ordered and the involved channel
keys distinct, applying the swap operator twice (same object, same active
action) finishes both times and restores the whole action — in particular
every `(property, axis)` channel of both bones — to its state before the
first swap, bit for bit. -/
theorem claim_C2 :
    ∀ (c : Ctx) (obj : BObject) (b0 b1 act : String) (a : Action),
      c.obj = some obj → obj.otype = "ARMATURE" →
      c.selected_pose_bones = [b0, b1] → c.active_pose_bone = some act →
      (act = b0 ∨ act = b1) →
      obj.animation_data = some ⟨some a⟩ →
      SortedAction a →
      (∀ x ∈ propAxisPairs, SelfKeysOK (if b1 = act then b0 else b1) act x) →
      propAxisPairs.Pairwise (StepKeysOK (if b1 = act then b0 else b1) act) →
      (swapExec c).outcome = .FINISHED ∧
      (swapExec (swapExec c).ctx).outcome = .FINISHED ∧
      (swapExec (swapExec c).ctx).ctx = c ∧
      (∀ a₂, ctxAction (swapExec (swapExec c).ctx).ctx = some a₂ →
        ∀ pr ∈ propAxisPairs,
          findPts a₂ (bonePath (if b1 = act then b0 else b1) pr.1) pr.2 =
            findPts a (bonePath (if b1 = act then b0 else b1) pr.1) pr.2 ∧
          findPts a₂ (bonePath act pr.1) pr.2 = findPts a (bonePath act pr.1) pr.2) := by
  intro c obj b0 b1 act a hobj hotype hsel hact hmem hanim hsorted hself hpw
  have h1 := swapExec_run hobj hotype hsel hact hmem hanim
  have hobj1 := setAction_fields hobj hanim
    (propAxisPairs.foldl (swapStep (if b1 = act then b0 else b1) act) a)
  have h2 := @swapExec_run ((swapExec c).ctx)
    ⟨obj.otype, obj.pose_bone_names, some ⟨some (propAxisPairs.foldl
      (swapStep (if b1 = act then b0 else b1) act) a)⟩⟩
    b0 b1 act
    (propAxisPairs.foldl (swapStep (if b1 = act then b0 else b1) act) a)
    (by rw [h1]; exact hobj1)
    hotype
    (by rw [h1]; dsimp only; rw [setAction_selected, hsel])
    (by rw [h1]; dsimp only; rw [setAction_active, hact])
    hmem rfl
  have hinv := foldl_swapStep_invol (if b1 = act then b0 else b1) act propAxisPairs a
    hsorted hself hpw
  have hctx2 : (swapExec (swapExec c).ctx).ctx = c := by
    rw [h2]
    dsimp only
    rw [hinv, h1]
    dsimp only
    rw [setAction_setAction]
    exact setAction_self (by simp [ctxAction, hobj, hanim])
  refine ⟨by rw [h1], by rw [h2], hctx2, ?_⟩
  intro a₂ ha₂ pr _
  rw [hctx2] at ha₂
  have : a₂ = a := by
    have := ha₂.symm.trans (show ctxAction c = some a by simp [ctxAction, hobj, hanim])
    exact Option.some_inj.mp this
  subst this
  exact ⟨rfl, rfl⟩

/-- Witness for C2: a concrete armature where `A` has location-X keys
`[(1, 5)]` and a scale-Y key, and `B` has location-X keys `[(2, 7), (4, 9)]`
(no scale-Y channel): swapping twice returns the context unchanged. -/
theorem claim_C2_witness :
    (swapExec (swapExec
      ⟨some ⟨"ARMATURE", ["A", "B"], some ⟨some ⟨[
        ⟨bonePath "A" "location", 0, [defaultKeyframe 1 5]⟩,
        ⟨bonePath "B" "location", 0, [defaultKeyframe 2 7, defaultKeyframe 4 9]⟩,
        ⟨bonePath "A" "scale", 1, [defaultKeyframe 3 1]⟩]⟩⟩⟩, ["A", "B"], some "B"⟩).ctx).ctx =
      ⟨some ⟨"ARMATURE", ["A", "B"], some ⟨some ⟨[
        ⟨bonePath "A" "location", 0, [defaultKeyframe 1 5]⟩,
        ⟨bonePath "B" "location", 0, [defaultKeyframe 2 7, defaultKeyframe 4 9]⟩,
        ⟨bonePath "A" "scale", 1, [defaultKeyframe 3 1]⟩]⟩⟩⟩, ["A", "B"], some "B"⟩ :=
  (claim_C2 _ _ "A" "B" "B" _ rfl rfl rfl rfl (Or.inr rfl) rfl
    (by decide) (by decide) (by decide)).2.2.1

set_option maxHeartbeats 1000000 in
/-- C8: when, for a `(property, axis)` combination the swap loop iterates,
exactly one of the two bones' channels exists, that combination is skipped
and both channels are untouched by the whole swap invocation — the present
one keeps its full f-curve state, the absent one stays absent. -/
theorem claim_C8 :
    ∀ (c : Ctx) (obj : BObject) (b0 b1 act : String) (a : Action) (pr : String × Int),
      c.obj = some obj → obj.otype = "ARMATURE" →
      c.selected_pose_bones = [b0, b1] → c.active_pose_bone = some act →
      (act = b0 ∨ act = b1) →
      obj.animation_data = some ⟨some a⟩ →
      pr ∈ propAxisPairs →
      (∀ x ∈ propAxisPairs, ∀ y ∈ propAxisPairs, x ≠ y →
        StepKeysOK (if b1 = act then b0 else b1) act x y) →
      (findFCurve a (bonePath (if b1 = act then b0 else b1) pr.1) pr.2 = none ∨
       findFCurve a (bonePath act pr.1) pr.2 = none) →
      ∀ a₁, ctxAction (swapExec c).ctx = some a₁ →
        findFCurve a₁ (bonePath (if b1 = act then b0 else b1) pr.1) pr.2 =
          findFCurve a (bonePath (if b1 = act then b0 else b1) pr.1) pr.2 ∧
        findFCurve a₁ (bonePath act pr.1) pr.2 =
          findFCurve a (bonePath act pr.1) pr.2 := by
  intro c obj b0 b1 act a pr hobj hotype hsel hact hmem hanim hpr hK hmiss a₁ ha₁
  have h1 := swapExec_run hobj hotype hsel hact hmem hanim
  rw [h1] at ha₁
  dsimp only at ha₁
  rw [ctxAction_setAction hobj hanim rfl] at ha₁
  have ha₁' : a₁ = propAxisPairs.foldl
      (swapStep (if b1 = act then b0 else b1) act) a := (Option.some_inj.mp ha₁).symm
  subst ha₁'
  have main : ∀ (L : List (String × Int)) (b : Action),
      (∀ x ∈ L, x = pr ∨ StepKeysOK (if b1 = act then b0 else b1) act x pr) →
      (findFCurve b (bonePath (if b1 = act then b0 else b1) pr.1) pr.2 =
        findFCurve a (bonePath (if b1 = act then b0 else b1) pr.1) pr.2) →
      (findFCurve b (bonePath act pr.1) pr.2 = findFCurve a (bonePath act pr.1) pr.2) →
      findFCurve (L.foldl (swapStep (if b1 = act then b0 else b1) act) b)
        (bonePath (if b1 = act then b0 else b1) pr.1) pr.2 =
        findFCurve a (bonePath (if b1 = act then b0 else b1) pr.1) pr.2 ∧
      findFCurve (L.foldl (swapStep (if b1 = act then b0 else b1) act) b)
        (bonePath act pr.1) pr.2 = findFCurve a (bonePath act pr.1) pr.2 := by
    intro L
    induction L with
    | nil => intro b _ hbs hbt; exact ⟨hbs, hbt⟩
    | cons x xs ih =>
      intro b hx hbs hbt
      simp only [List.foldl_cons]
      rcases hx x (List.mem_cons_self _ _) with rfl | hk
      · have hskip : swapStep (if b1 = act then b0 else b1) act b x = b := by
          apply swapStep_skip
          rcases hmiss with h | h
          · exact Or.inl (hbs.trans h)
          · exact Or.inr (hbt.trans h)
        rw [hskip]
        exact ih b (fun z hz => hx z (List.mem_cons_of_mem _ hz)) hbs hbt
      · have hfr := findFCurve_swapStep_ne_of_keys b hk
        exact ih _ (fun z hz => hx z (List.mem_cons_of_mem _ hz))
          (hfr.1.trans hbs) (hfr.2.trans hbt)
  exact main propAxisPairs a
    (fun x hx => by
      by_cases hxp : x = pr
      · exact Or.inl hxp
      · exact Or.inr (hK x hx pr hpr hxp))
    rfl rfl

/-- Witness for C8: bone `A` has a scale-Y channel, bone `B` does not;
after the swap (which exchanges the two location-X channels) both are as
before — `A`'s scale-Y channel intact, `B`'s still absent. -/
theorem claim_C8_witness :
    findFCurve ⟨[
        ⟨bonePath "A" "location", 0, [defaultKeyframe 2 7]⟩,
        ⟨bonePath "B" "location", 0, [defaultKeyframe 1 5]⟩,
        ⟨bonePath "A" "scale", 1, [defaultKeyframe 3 1]⟩]⟩ (bonePath "A" "scale") 1 =
      some ⟨bonePath "A" "scale", 1, [defaultKeyframe 3 1]⟩ ∧
    findFCurve ⟨[
        ⟨bonePath "A" "location", 0, [defaultKeyframe 2 7]⟩,
        ⟨bonePath "B" "location", 0, [defaultKeyframe 1 5]⟩,
        ⟨bonePath "A" "scale", 1, [defaultKeyframe 3 1]⟩]⟩ (bonePath "B" "scale") 1 =
      none := by
  have h := claim_C8
    ⟨some ⟨"ARMATURE", ["A", "B"], some ⟨some ⟨[
      ⟨bonePath "A" "location", 0, [defaultKeyframe 1 5]⟩,
      ⟨bonePath "B" "location", 0, [defaultKeyframe 2 7]⟩,
      ⟨bonePath "A" "scale", 1, [defaultKeyframe 3 1]⟩]⟩⟩⟩, ["A", "B"], some "B"⟩
    ⟨"ARMATURE", ["A", "B"], some ⟨some ⟨[
      ⟨bonePath "A" "location", 0, [defaultKeyframe 1 5]⟩,
      ⟨bonePath "B" "location", 0, [defaultKeyframe 2 7]⟩,
      ⟨bonePath "A" "scale", 1, [defaultKeyframe 3 1]⟩]⟩⟩⟩
    "A" "B" "B"
    ⟨[⟨bonePath "A" "location", 0, [defaultKeyframe 1 5]⟩,
      ⟨bonePath "B" "location", 0, [defaultKeyframe 2 7]⟩,
      ⟨bonePath "A" "scale", 1, [defaultKeyframe 3 1]⟩]⟩
    ("scale", 1) rfl rfl rfl rfl (Or.inr rfl) rfl
    (by decide) (by decide) (Or.inr (by decide))
    ⟨[⟨bonePath "A" "location", 0, [defaultKeyframe 2 7]⟩,
      ⟨bonePath "B" "location", 0, [defaultKeyframe 1 5]⟩,
      ⟨bonePath "A" "scale", 1, [defaultKeyframe 3 1]⟩]⟩
    (by decide)
  refine ⟨h.1.trans (by decide), h.2.trans (by decide)⟩

/-! ### Idempotence machinery for the copy loop (C9) -/

/-- The target channel key a matching, resolving source channel writes to
(`none` for non-matching channels and per-axis skips). -/
def writeKey (source_axes : List String) (src tgt : String) (fc : FCurve) :
    Option (String × Int) :=
  if matchesSrc src fc then
    match resolveChannel source_axes tgt fc with
    | .ok tpath j _ => some (tpath, j)
    | _ => none
  else none

/-- Bool core of the separation condition: the target path a channel
resolves to is not itself a source-location path. -/
def sepOKb (source_axes : List String) (src tgt : String) (fc : FCurve) : Bool :=
  match resolveChannel source_axes tgt fc with
  | .ok tpath _ _ => ! pyStartswith (bonePath src "location") tpath
  | _ => true

/-- Separation: no matching channel's write target is itself a
source-location channel (true for any two distinct, quote-free bone
names). -/
def SepOK (source_axes : List String) (src tgt : String) (l : List FCurve) : Prop :=
  ∀ fc ∈ l, matchesSrc src fc = true → sepOKb source_axes src tgt fc = true

instance (source_axes : List String) (src tgt : String) (l : List FCurve) :
    Decidable (SepOK source_axes src tgt l) :=
  inferInstanceAs (Decidable (∀ fc ∈ l, _ → _))

/-- Injectivity: no two distinct channels of the action write to the same
target key (true whenever the three axis labels map distinct source axes to
distinct target axes). -/
def InjOK (source_axes : List String) (src tgt : String) (l : List FCurve) : Prop :=
  ∀ fc₁ ∈ l, ∀ fc₂ ∈ l,
    writeKey source_axes src tgt fc₁ = writeKey source_axes src tgt fc₂ →
    (writeKey source_axes src tgt fc₁).isSome = true → fc₁ = fc₂

instance (source_axes : List String) (src tgt : String) (l : List FCurve) :
    Decidable (InjOK source_axes src tgt l) :=
  inferInstanceAs (Decidable (∀ fc₁ ∈ l, ∀ fc₂ ∈ l, _ → _ → _))

theorem writeKey_ok {source_axes : List String} {src tgt : String} {fc : FCurve}
    {tpath : String} {j : Int} {s : ℚ}
    (hm : matchesSrc src fc = true)
    (hr : resolveChannel source_axes tgt fc = .ok tpath j s) :
    writeKey source_axes src tgt fc = some (tpath, j) := by
  unfold writeKey
  rw [if_pos hm, hr]

theorem sepOKb_target {source_axes : List String} {src tgt : String} {fc : FCurve}
    {tpath : String} {j : Int} {s : ℚ}
    (hr : resolveChannel source_axes tgt fc = .ok tpath j s)
    (hsep : sepOKb source_axes src tgt fc = true) :
    pyStartswith (bonePath src "location") tpath = false := by
  unfold sepOKb at hsep
  rw [hr] at hsep
  simpa using hsep

/-- A step never touches a key it does not write. -/
theorem findFCurve_pcAction_frame {source_axes : List String} {src tgt : String}
    (replace_all : Bool) (a : Action) (fc : FCurve) {p' : String} {i' : Int}
    (h : writeKey source_axes src tgt fc ≠ some (p', i')) :
    findFCurve (pcAction source_axes replace_all src tgt a fc) p' i' =
      findFCurve a p' i' := by
  by_cases hm : matchesSrc src fc
  · cases hr : resolveChannel source_axes tgt fc with
    | badIndex i =>
      rw [pcAction_bad replace_all a (fun tp j s hc => by rw [hr] at hc; cases hc)]
    | badLabel label =>
      rw [pcAction_bad replace_all a (fun tp j s hc => by rw [hr] at hc; cases hc)]
    | ok tpath j s =>
      have hw := writeKey_ok hm hr
      have hkey : ¬ (p' = tpath ∧ i' = j) := by
        rintro ⟨rfl, rfl⟩
        exact h hw
      exact findFCurve_pcAction_ne replace_all a hm hr hkey
  · rw [pcAction_skip hm]

theorem findFCurve_foldl_pcAction_frame (source_axes : List String) (src tgt : String)
    (replace_all : Bool) {p' : String} {i' : Int} :
    ∀ (L : List FCurve) (a : Action),
      (∀ fc ∈ L, writeKey source_axes src tgt fc ≠ some (p', i')) →
      findFCurve (L.foldl (pcAction source_axes replace_all src tgt) a) p' i' =
        findFCurve a p' i' := by
  intro L
  induction L with
  | nil => intro a _; rfl
  | cons fc L' ih =>
    intro a h
    simp only [List.foldl_cons]
    rw [ih _ (fun g hg => h g (List.mem_cons_of_mem _ hg)),
        findFCurve_pcAction_frame replace_all a fc (h fc (List.mem_cons_self _ _))]

theorem copyRun_fst (source_axes : List String) (replace_all : Bool)
    (src tgt : String) (a : Action) :
    (copyRun source_axes replace_all src tgt a).1 =
      a.fcurves.foldl (pcAction source_axes replace_all src tgt) a := by
  unfold copyRun
  generalize a.fcurves = L
  generalize ([] : List Msg) = ms
  induction L generalizing a ms with
  | nil => rfl
  | cons fc L' ih =>
    simp only [List.foldl_cons]
    have hfst := processChannel_fst source_axes replace_all src tgt a ms fc
    rcases hpc : processChannel source_axes replace_all src tgt (a, ms) fc with ⟨a', ms'⟩
    rw [hpc] at hfst
    simp only at hfst
    rw [hfst]
    exact ih _ _

theorem foldl_updateIns (p : String) (i : Int) (s : ℚ) (live : List KeyframePoint) :
    ∀ (a : Action) (f : List KeyframePoint → List KeyframePoint),
      live.foldl (fun acc kp => updatePts acc p i (insertKeyframe kp.co.1 (kp.co.2 * s)))
        (updatePts a p i f) =
      updatePts a p i (fun pts =>
        live.foldl (fun pts kp => insertKeyframe kp.co.1 (kp.co.2 * s) pts) (f pts)) := by
  induction live with
  | nil => intro a f; rfl
  | cons kp live' ih =>
    intro a f
    simp only [List.foldl_cons]
    rw [updatePts_updatePts_same]
    exact ih a _

theorem updatePts_ident (a : Action) (p : String) (i : Int) :
    updatePts a p i (fun pts => pts) = a := by
  unfold updatePts
  rcases a with ⟨l⟩
  congr 1
  induction l with
  | nil => rfl
  | cons hd tl ih =>
    rw [updateFirst_cons]
    by_cases hk : (hd.data_path == p && hd.array_index == i) = true
    · rw [if_pos hk]
    · rw [if_neg hk, ih]

theorem hasFCurve_ensure (a : Action) (p p' : String) (i i' : Int)
    (h : hasFCurve a p' i' = true) :
    hasFCurve (ensureFCurve a p i) p' i' = true := by
  by_cases hk : p' = p ∧ i' = i
  · rcases hk with ⟨rfl, rfl⟩
    exact hasFCurve_ensure_same a p' i'
  · unfold hasFCurve
    rw [findFCurve_ensure_ne a hk]
    exact h

theorem hasFCurve_pcAction (source_axes : List String) (replace_all : Bool)
    (src tgt : String) (a : Action) (fc : FCurve) {p' : String} {i' : Int}
    (h : hasFCurve a p' i' = true) :
    hasFCurve (pcAction source_axes replace_all src tgt a fc) p' i' = true := by
  by_cases hm : matchesSrc src fc
  · cases hr : resolveChannel source_axes tgt fc with
    | badIndex i =>
      rw [pcAction_bad replace_all a (fun tp j s hc => by rw [hr] at hc; cases hc)]
      exact h
    | badLabel label =>
      rw [pcAction_bad replace_all a (fun tp j s hc => by rw [hr] at hc; cases hc)]
      exact h
    | ok tpath j s =>
      rw [pcAction_char replace_all a hm hr]
      generalize livePts _ fc = live
      have hstage : hasFCurve (if replace_all then
          setPts (ensureFCurve a tpath j) tpath j [] else ensureFCurve a tpath j) p' i'
          = true := by
        cases replace_all
        · simpa using hasFCurve_ensure a tpath p' j i' h
        · simp only [if_true]
          unfold setPts
          rw [hasFCurve_updatePts]
          exact hasFCurve_ensure a tpath p' j i' h
      generalize (if replace_all then setPts (ensureFCurve a tpath j) tpath j []
        else ensureFCurve a tpath j) = a2 at hstage
      induction live generalizing a2 with
      | nil => exact hstage
      | cons kp live' ih =>
        simp only [List.foldl_cons]
        exact ih _ (by rw [hasFCurve_updatePts]; exact hstage)
  · rw [pcAction_skip hm]
    exact h

theorem hasFCurve_pcAction_target {source_axes : List String} {src tgt : String}
    {fc : FCurve} {tpath : String} {j : Int} {s : ℚ}
    (replace_all : Bool) (a : Action)
    (hm : matchesSrc src fc = true)
    (hr : resolveChannel source_axes tgt fc = .ok tpath j s)
    (hkey : ¬ (fc.data_path = tpath ∧ fc.array_index = j)) :
    hasFCurve (pcAction source_axes replace_all src tgt a fc) tpath j = true := by
  have := findPts_pcAction_target replace_all a hm hr hkey
  unfold findPts at this
  unfold hasFCurve
  cases hf : findFCurve (pcAction source_axes replace_all src tgt a fc) tpath j with
  | none => rw [hf] at this; simp at this
  | some g => rfl

theorem hasFCurve_foldl_pcAction (source_axes : List String) (replace_all : Bool)
    (src tgt : String) {p' : String} {i' : Int} :
    ∀ (L : List FCurve) (a : Action), hasFCurve a p' i' = true →
      hasFCurve (L.foldl (pcAction source_axes replace_all src tgt) a) p' i' = true := by
  intro L
  induction L with
  | nil => intro a h; exact h
  | cons fc L' ih =>
    intro a h
    simp only [List.foldl_cons]
    exact ih _ (hasFCurve_pcAction source_axes replace_all src tgt a fc h)

theorem path_ne_of_startswith {pre p q : String}
    (hq : pyStartswith pre q = true) (hp : pyStartswith pre p = false) : q ≠ p := by
  intro h
  rw [h, hp] at hq
  cases hq

theorem writeKey_not_source {source_axes : List String} {src tgt : String} {fc : FCurve}
    {q : String} {i : Int}
    (hsep1 : matchesSrc src fc = true → sepOKb source_axes src tgt fc = true)
    (hq : pyStartswith (bonePath src "location") q = true) :
    writeKey source_axes src tgt fc ≠ some (q, i) := by
  unfold writeKey
  by_cases hm : matchesSrc src fc
  · rw [if_pos hm]
    cases hr : resolveChannel source_axes tgt fc with
    | badIndex k => simp
    | badLabel label => simp
    | ok tpath j s =>
      intro hc
      have htp := sepOKb_target hr (hsep1 hm)
      have : tpath = q := (Prod.mk.injEq .. ▸ Option.some_inj.mp hc).1
      rw [this, hq] at htp
      cases htp
  · rw [if_neg hm]
    simp

theorem mem_updatePts_iff {a : Action} {p : String} {i : Int}
    {f : List KeyframePoint → List KeyframePoint} {q : FCurve}
    (hqp : q.data_path ≠ p) :
    q ∈ (updatePts a p i f).fcurves ↔ q ∈ a.fcurves := by
  unfold updatePts
  rcases a with ⟨l⟩
  induction l with
  | nil => simp [updateFirst]
  | cons hd tl ih =>
    rw [updateFirst_cons]
    by_cases hk : (hd.data_path == p && hd.array_index == i) = true
    · rw [if_pos hk]
      have hdp : hd.data_path = p := (keyTest_iff.mp hk).1
      constructor
      · intro hq
        cases hq with
        | head => exact absurd hdp hqp
        | tail _ hq => exact List.mem_cons_of_mem _ hq
      · intro hq
        cases hq with
        | head => exact absurd hdp hqp
        | tail _ hq => exact List.mem_cons_of_mem _ hq
    · rw [if_neg hk]
      constructor
      · intro hq
        cases hq with
        | head => exact List.mem_cons_self _ _
        | tail _ hq => exact List.mem_cons_of_mem _ (ih.mp hq)
      · intro hq
        cases hq with
        | head => exact List.mem_cons_self _ _
        | tail _ hq => exact List.mem_cons_of_mem _ (ih.mpr hq)

theorem mem_ensure_iff {a : Action} {p : String} {i : Int} {q : FCurve}
    (hqp : q.data_path ≠ p) :
    q ∈ (ensureFCurve a p i).fcurves ↔ q ∈ a.fcurves := by
  unfold ensureFCurve
  by_cases h : hasFCurve a p i
  · rw [if_pos h]
  · rw [if_neg h]
    simp only [List.mem_append, List.mem_singleton]
    constructor
    · rintro (hq | rfl)
      · exact hq
      · exact absurd rfl hqp
    · exact Or.inl

theorem mem_pcAction_iff {source_axes : List String} {src tgt : String} {fc : FCurve}
    (replace_all : Bool) (a : Action) {q : FCurve}
    (hq : matchesSrc src q = true)
    (hsep1 : matchesSrc src fc = true → sepOKb source_axes src tgt fc = true) :
    q ∈ (pcAction source_axes replace_all src tgt a fc).fcurves ↔ q ∈ a.fcurves := by
  by_cases hm : matchesSrc src fc
  · cases hr : resolveChannel source_axes tgt fc with
    | badIndex k =>
      rw [pcAction_bad replace_all a (fun tp j s hc => by rw [hr] at hc; cases hc)]
    | badLabel label =>
      rw [pcAction_bad replace_all a (fun tp j s hc => by rw [hr] at hc; cases hc)]
    | ok tpath j s =>
      have htp := sepOKb_target hr (hsep1 hm)
      have hqp : q.data_path ≠ tpath := path_ne_of_startswith hq htp
      rw [pcAction_char replace_all a hm hr]
      generalize livePts _ fc = live
      have hstage : ∀ a₀ : Action,
          (q ∈ (if replace_all then setPts (ensureFCurve a₀ tpath j) tpath j []
            else ensureFCurve a₀ tpath j).fcurves ↔ q ∈ a₀.fcurves) := by
        intro a₀
        cases replace_all
        · simpa using mem_ensure_iff hqp
        · simp only [if_true]
          unfold setPts
          rw [mem_updatePts_iff hqp, mem_ensure_iff hqp]
      rw [show (q ∈ (live.foldl (fun acc kp => updatePts acc tpath j
          (insertKeyframe kp.co.1 (kp.co.2 * s)))
          (if replace_all then setPts (ensureFCurve a tpath j) tpath j []
            else ensureFCurve a tpath j)).fcurves ↔
          q ∈ (if replace_all then setPts (ensureFCurve a tpath j) tpath j []
            else ensureFCurve a tpath j).fcurves) from ?_, hstage a]
      generalize (if replace_all then setPts (ensureFCurve a tpath j) tpath j []
        else ensureFCurve a tpath j) = a2
      induction live generalizing a2 with
      | nil => exact Iff.rfl
      | cons kp live' ih =>
        simp only [List.foldl_cons]
        rw [ih _, mem_updatePts_iff hqp]
  · rw [pcAction_skip hm]

theorem mem_run_iff {source_axes : List String} {src tgt : String}
    (replace_all : Bool) {q : FCurve} (hq : matchesSrc src q = true) :
    ∀ (L : List FCurve) (a : Action),
      (∀ fc ∈ L, matchesSrc src fc = true → sepOKb source_axes src tgt fc = true) →
      (q ∈ (L.foldl (pcAction source_axes replace_all src tgt) a).fcurves ↔
        q ∈ a.fcurves) := by
  intro L
  induction L with
  | nil => intro a _; exact Iff.rfl
  | cons fc L' ih =>
    intro a hsep
    simp only [List.foldl_cons]
    rw [ih _ (fun g hg => hsep g (List.mem_cons_of_mem _ hg)),
        mem_pcAction_iff replace_all a hq (hsep fc (List.mem_cons_self _ _))]

/-- The heart of C9's idempotence: after one whole copy run, the target
channel of the (unique) matching source channel writing it holds exactly
the fold of scaled inserts over its prior content. -/
theorem findPts_run_target {source_axes : List String} {src tgt : String}
    (replace_all : Bool) {a : Action} {fc₀ : FCurve} {tpath : String} {j : Int} {s : ℚ}
    (hu : UniqueKeys a)
    (hsep : SepOK source_axes src tgt a.fcurves)
    (hinj : InjOK source_axes src tgt a.fcurves)
    (hmem : fc₀ ∈ a.fcurves)
    (hm : matchesSrc src fc₀ = true)
    (hr : resolveChannel source_axes tgt fc₀ = .ok tpath j s) :
    findPts (a.fcurves.foldl (pcAction source_axes replace_all src tgt) a) tpath j =
      some (fc₀.keyframe_points.foldl
        (fun pts kp => insertKeyframe kp.co.1 (kp.co.2 * s) pts)
        (if replace_all then [] else (findPts a tpath j).getD [])) := by
  obtain ⟨L₁, L₂, hLL⟩ := List.append_of_mem hmem
  have hw₀ := writeKey_ok hm hr
  have hL₁sub : ∀ fc ∈ L₁, fc ∈ a.fcurves := by
    intro fc hfc
    rw [hLL]
    exact List.mem_append.mpr (Or.inl hfc)
  have hL₂sub : ∀ fc ∈ L₂, fc ∈ a.fcurves := by
    intro fc hfc
    rw [hLL]
    exact List.mem_append.mpr (Or.inr (List.mem_cons_of_mem _ hfc))
  have hu' := hu
  unfold UniqueKeys at hu'
  rw [hLL, List.pairwise_append] at hu'
  have hnotkeyL₁ : ∀ fc ∈ L₁, writeKey source_axes src tgt fc ≠ some (tpath, j) := by
    intro fc hfc hc
    have heq : fc = fc₀ := hinj fc (hL₁sub fc hfc) fc₀ hmem (hc.trans hw₀.symm)
      (by rw [hc]; rfl)
    exact hu'.2.2 fc hfc fc₀ (List.mem_cons_self _ _) ⟨by rw [heq], by rw [heq]⟩
  have hnotkeyL₂ : ∀ fc ∈ L₂, writeKey source_axes src tgt fc ≠ some (tpath, j) := by
    intro fc hfc hc
    have heq : fc = fc₀ := hinj fc (hL₂sub fc hfc) fc₀ hmem (hc.trans hw₀.symm)
      (by rw [hc]; rfl)
    exact (List.pairwise_cons.mp hu'.2.1).1 fc hfc ⟨by rw [heq], by rw [heq]⟩
  have hsrc₀ : pyStartswith (bonePath src "location") fc₀.data_path = true := hm
  have htp := sepOKb_target hr (hsep fc₀ hmem hm)
  have hkey₀ : ¬ (fc₀.data_path = tpath ∧ fc₀.array_index = j) :=
    fun hc => path_ne_of_startswith hsrc₀ htp hc.1
  have hnotsrcL₁ : ∀ fc ∈ L₁,
      writeKey source_axes src tgt fc ≠ some (fc₀.data_path, fc₀.array_index) := by
    intro fc hfc
    exact writeKey_not_source (hsep fc (hL₁sub fc hfc)) hsrc₀
  rw [hLL, List.foldl_append, List.foldl_cons]
  have hstep : findPts (pcAction source_axes replace_all src tgt
      (L₁.foldl (pcAction source_axes replace_all src tgt) a) fc₀) tpath j =
      some ((livePts (L₁.foldl (pcAction source_axes replace_all src tgt) a) fc₀).foldl
        (fun pts kp => insertKeyframe kp.co.1 (kp.co.2 * s) pts)
        (if replace_all then []
         else (findPts (L₁.foldl (pcAction source_axes replace_all src tgt) a) tpath j).getD [])) :=
    findPts_pcAction_target replace_all _ hm hr hkey₀
  have hlive : livePts (L₁.foldl (pcAction source_axes replace_all src tgt) a) fc₀ =
      fc₀.keyframe_points := by
    unfold livePts
    rw [findFCurve_foldl_pcAction_frame source_axes src tgt replace_all L₁ a hnotsrcL₁]
    rw [findFCurve_self hu hmem]
  have hold : findPts (L₁.foldl (pcAction source_axes replace_all src tgt) a) tpath j =
      findPts a tpath j := by
    unfold findPts
    rw [findFCurve_foldl_pcAction_frame source_axes src tgt replace_all L₁ a hnotkeyL₁]
  rw [hlive, hold] at hstep
  unfold findPts at hstep ⊢
  rw [findFCurve_foldl_pcAction_frame source_axes src tgt replace_all L₂ _ hnotkeyL₂]
  exact hstep

theorem foldl_eq_self {α β : Type} (f : α → β → α) (a : α) :
    ∀ L : List β, (∀ x ∈ L, f a x = a) → L.foldl f a = a := by
  intro L
  induction L with
  | nil => intro _; rfl
  | cons x xs ih =>
    intro h
    simp only [List.foldl_cons]
    rw [h x (List.mem_cons_self _ _)]
    exact ih (fun y hy => h y (List.mem_cons_of_mem _ hy))

theorem sorted_oldD {a : Action} (hsort : SortedAction a) (p : String) (i : Int) :
    TimeSorted ((findPts a p i).getD []) := by
  unfold findPts
  cases hf : findFCurve a p i with
  | none => exact List.Pairwise.nil
  | some g => exact hsort g (findFCurve_mem hf).1

/-- Running the copy loop a second time on its own output changes
nothing. -/
theorem copyRun_fixpoint (source_axes : List String) (replace_all : Bool)
    (src tgt : String) {a : Action}
    (hu : UniqueKeys a) (hsort : SortedAction a)
    (hsep : SepOK source_axes src tgt a.fcurves)
    (hinj : InjOK source_axes src tgt a.fcurves) :
    ((a.fcurves.foldl (pcAction source_axes replace_all src tgt) a).fcurves).foldl
        (pcAction source_axes replace_all src tgt)
        (a.fcurves.foldl (pcAction source_axes replace_all src tgt) a) =
      a.fcurves.foldl (pcAction source_axes replace_all src tgt) a := by
  apply foldl_eq_self
  intro fc' hfc'
  by_cases hm : matchesSrc src fc'
  case neg => exact pcAction_skip hm _ _ _ _
  case pos =>
  have hfca : fc' ∈ a.fcurves := (mem_run_iff replace_all hm a.fcurves a hsep).mp hfc'
  cases hr : resolveChannel source_axes tgt fc' with
  | badIndex k => exact pcAction_bad _ _ (fun tp j s hc => by rw [hr] at hc; cases hc)
  | badLabel label => exact pcAction_bad _ _ (fun tp j s hc => by rw [hr] at hc; cases hc)
  | ok tpath j s =>
    have htp := sepOKb_target hr (hsep fc' hfca hm)
    have hsrc' : pyStartswith (bonePath src "location") fc'.data_path = true := hm
    have hkey : ¬ (fc'.data_path = tpath ∧ fc'.array_index = j) :=
      fun hc => path_ne_of_startswith hsrc' htp hc.1
    have hX := findPts_run_target replace_all hu hsep hinj hfca hm hr
    have hpres : hasFCurve (a.fcurves.foldl (pcAction source_axes replace_all src tgt) a)
        tpath j = true := by
      obtain ⟨L₁, L₂, hLL⟩ := List.append_of_mem hfca
      conv_lhs => rw [hLL]
      rw [List.foldl_append, List.foldl_cons]
      apply hasFCurve_foldl_pcAction
      exact hasFCurve_pcAction_target replace_all _ hm hr hkey
    have hens : ensureFCurve (a.fcurves.foldl (pcAction source_axes replace_all src tgt) a)
        tpath j = a.fcurves.foldl (pcAction source_axes replace_all src tgt) a := by
      unfold ensureFCurve
      rw [hpres]
      rfl
    have hfind1 : findFCurve (a.fcurves.foldl (pcAction source_axes replace_all src tgt) a)
        fc'.data_path fc'.array_index = some fc' := by
      rw [findFCurve_foldl_pcAction_frame source_axes src tgt replace_all a.fcurves a
        (fun fc hfc => writeKey_not_source (hsep fc hfc) hsrc')]
      exact findFCurve_self hu hfca
    have hXsorted : TimeSorted (fc'.keyframe_points.foldl
        (fun pts kp => insertKeyframe kp.co.1 (kp.co.2 * s) pts)
        (if replace_all then [] else (findPts a tpath j).getD [])) := by
      apply foldl_insert_sorted
      cases replace_all
      · simpa using sorted_oldD hsort tpath j
      · exact List.Pairwise.nil
    have hXcontains : ∀ kp ∈ fc'.keyframe_points,
        ∃ q ∈ fc'.keyframe_points.foldl
          (fun pts kp => insertKeyframe kp.co.1 (kp.co.2 * s) pts)
          (if replace_all then [] else (findPts a tpath j).getD []),
        q.co = (kp.co.1, kp.co.2 * s) :=
      fun kp hkp => foldl_insert_contains s (hsort fc' hfca) _ kp hkp
    rw [pcAction_char replace_all _ hm hr]
    rw [hens]
    cases replace_all with
    | true =>
      simp only [if_true]
      have hlive : livePts (setPts (a.fcurves.foldl
          (pcAction source_axes true src tgt) a) tpath j []) fc' = fc'.keyframe_points := by
        unfold livePts setPts
        rw [findFCurve_updatePts_ne _ _ hkey, hfind1]
      rw [hlive]
      unfold setPts
      rw [foldl_updateIns]
      apply updatePts_id
      intro g hg
      have hfp : findPts (a.fcurves.foldl (pcAction source_axes true src tgt) a) tpath j =
          some g.keyframe_points := by
        unfold findPts
        rw [hg]
        rfl
      rw [hX] at hfp
      have hgp := (Option.some_inj.mp hfp).symm
      rw [hgp]
      rfl
    | false =>
      simp only [Bool.false_eq_true, if_false]
      have hlive : livePts (a.fcurves.foldl (pcAction source_axes false src tgt) a) fc' =
          fc'.keyframe_points := by
        unfold livePts
        rw [hfind1]
      rw [hlive]
      conv_lhs => rw [show a.fcurves.foldl (pcAction source_axes false src tgt) a =
        updatePts (a.fcurves.foldl (pcAction source_axes false src tgt) a) tpath j
          (fun pts => pts) from (updatePts_ident _ _ _).symm]
      rw [foldl_updateIns]
      apply updatePts_id
      intro g hg
      have hfp : findPts (a.fcurves.foldl (pcAction source_axes false src tgt) a) tpath j =
          some g.keyframe_points := by
        unfold findPts
        rw [hg]
        rfl
      rw [hX] at hfp
      have hgp := (Option.some_inj.mp hfp).symm
      rw [hgp]
      exact foldl_insert_id s fc'.keyframe_points _ hXsorted hXcontains

theorem copyOneExec_run {c : Ctx} {obj : BObject} {b0 b1 act : String} {a : Action}
    (hobj : c.obj = some obj) (hotype : obj.otype = "ARMATURE")
    (hsel : c.selected_pose_bones = [b0, b1]) (hact : c.active_pose_bone = some act)
    (hmem : act = b0 ∨ act = b1) (hanim : obj.animation_data = some ⟨some a⟩)
    (axis : String) (use_secondary_mapping : Bool) (scene : Scene) :
    copyOneExec axis use_secondary_mapping scene c =
      ⟨.FINISHED,
       (copyRun (if use_secondary_mapping then secondaryAxes scene else primaryAxes scene)
          (if use_secondary_mapping then scene.secondary_replace_all_keyframes
            else scene.replace_all_keyframes)
          (if b1 = act then b0 else b1) act a).2 ++ [.infoCopyDone axis],
       setAction c
        (copyRun (if use_secondary_mapping then secondaryAxes scene else primaryAxes scene)
          (if use_secondary_mapping then scene.secondary_replace_all_keyframes
            else scene.replace_all_keyframes)
          (if b1 = act then b0 else b1) act a).1⟩ := by
  have harm : ¬ obj.otype ≠ "ARMATURE" := by rw [hotype]; simp
  unfold copyOneExec
  simp only [hobj, if_neg harm, hsel, hact, if_neg (not_not_intro hmem), hanim]

set_option maxHeartbeats 1000000 in
/-- C9: a single copy-one-axis invocation processes every matching source
channel whatever its `axis` argument is — two invocations with different
axis arguments return the same context and the same messages except for the
final per-axis report, which is `infoCopyDone axis`; and copy-all-axes,
which runs copy-one-axis three times, leaves the context (hence every
channel) in the same final state as a single copy-one-axis invocation. -/
theorem claim_C9 :
    ∀ (scene : Scene) (use2 : Bool) (c : Ctx) (obj : BObject) (b0 b1 act : String)
      (a : Action),
      c.obj = some obj → obj.otype = "ARMATURE" →
      c.selected_pose_bones = [b0, b1] → c.active_pose_bone = some act →
      (act = b0 ∨ act = b1) →
      obj.animation_data = some ⟨some a⟩ →
      UniqueKeys a → SortedAction a →
      SepOK (if use2 then secondaryAxes scene else primaryAxes scene)
        (if b1 = act then b0 else b1) act a.fcurves →
      InjOK (if use2 then secondaryAxes scene else primaryAxes scene)
        (if b1 = act then b0 else b1) act a.fcurves →
      (∀ axis axis',
        (copyOneExec axis use2 scene c).ctx = (copyOneExec axis' use2 scene c).ctx ∧
        (copyOneExec axis use2 scene c).msgs.dropLast =
          (copyOneExec axis' use2 scene c).msgs.dropLast ∧
        (copyOneExec axis use2 scene c).msgs.getLast? = some (.infoCopyDone axis)) ∧
      (∀ axis, (copyAllExec use2 scene c).ctx = (copyOneExec axis use2 scene c).ctx) := by
  intro scene use2 c obj b0 b1 act a hobj hotype hsel hact hmem hanim hu hsort hsep hinj
  have hrun := fun ax => copyOneExec_run hobj hotype hsel hact hmem hanim ax use2 scene
  constructor
  · intro axis axis'
    rw [hrun axis, hrun axis']
    refine ⟨rfl, ?_, ?_⟩
    · simp only [List.dropLast_concat]
    · simp only [List.getLast?_concat]
  · intro axis
    have harm : ¬ obj.otype ≠ "ARMATURE" := by rw [hotype]; simp
    have hfix : (copyRun (if use2 then secondaryAxes scene else primaryAxes scene)
        (if use2 then scene.secondary_replace_all_keyframes
          else scene.replace_all_keyframes)
        (if b1 = act then b0 else b1) act
        ((copyRun (if use2 then secondaryAxes scene else primaryAxes scene)
          (if use2 then scene.secondary_replace_all_keyframes
            else scene.replace_all_keyframes)
          (if b1 = act then b0 else b1) act a).1)).1 =
        (copyRun (if use2 then secondaryAxes scene else primaryAxes scene)
          (if use2 then scene.secondary_replace_all_keyframes
            else scene.replace_all_keyframes)
          (if b1 = act then b0 else b1) act a).1 := by
      rw [copyRun_fst, copyRun_fst]
      exact copyRun_fixpoint _ _ _ _ hu hsort hsep hinj
    have hobj1 := setAction_fields hobj hanim
      (copyRun (if use2 then secondaryAxes scene else primaryAxes scene)
        (if use2 then scene.secondary_replace_all_keyframes
          else scene.replace_all_keyframes)
        (if b1 = act then b0 else b1) act a).1
    have hsel1 : (setAction c
        (copyRun (if use2 then secondaryAxes scene else primaryAxes scene)
          (if use2 then scene.secondary_replace_all_keyframes
            else scene.replace_all_keyframes)
          (if b1 = act then b0 else b1) act a).1).selected_pose_bones = [b0, b1] := by
      rw [setAction_selected, hsel]
    have hact1 : (setAction c
        (copyRun (if use2 then secondaryAxes scene else primaryAxes scene)
          (if use2 then scene.secondary_replace_all_keyframes
            else scene.replace_all_keyframes)
          (if b1 = act then b0 else b1) act a).1).active_pose_bone = some act := by
      rw [setAction_active, hact]
    have hrunY := copyOneExec_run hobj1 hotype hsel1 hact1 hmem rfl "Y" use2 scene
    have hrunZ := copyOneExec_run hobj1 hotype hsel1 hact1 hmem rfl "Z" use2 scene
    rw [hfix, setAction_setAction] at hrunY hrunZ
    rw [hrun axis]
    unfold copyAllExec
    simp only [hobj, if_neg harm, hsel, hact, if_neg (not_not_intro hmem),
      List.foldl_cons, List.foldl_nil, hrun "X", hrunY, hrunZ]

theorem claim_C9_witness :
    (copyAllExec false exSceneC1 exCtxC1).ctx =
      (copyOneExec "X" false exSceneC1 exCtxC1).ctx ∧
    (copyOneExec "X" false exSceneC1 exCtxC1).msgs.getLast? =
      some (.infoCopyDone "X") := by
  have h := claim_C9 exSceneC1 false exCtxC1
    ⟨"ARMATURE", ["A", "B"], some ⟨some exActionC1⟩⟩ "A" "B" "B" exActionC1
    rfl rfl rfl rfl (Or.inr rfl) rfl
    (by decide) (by decide) (by decide) (by decide)
  exact ⟨h.2 "X", (h.1 "X" "X").2.2⟩

end BoneAnim
